import Mathlib

/-!
Verification development for the Synchronization & Delta-Deployment Engine
(FTP skin sync): a shallow embedding of the path handling, snapshot diffing,
durable-metadata readers, transport retry/permission policies, and the
orchestration operations (auto-upload, restore, deploy), together with
theorems settling the frozen claims about them.

Modelling conventions:
* Absolute filesystem paths are lists of segments (the components between
  `/` separators); `node:path`'s `resolve`/`relative` are modelled by
  explicit segment normalization (`resolveSegs`, `isPathInsideLocal`).
* The filesystem is the list of absolute paths of regular files; `stat`
  that succeeds on a regular file is membership, copy adds the target,
  `rm` removes it.  Directories are implicit (a `stat` hitting a directory
  behaves like a miss for the `.isFile()` checks, which is how every call
  site treats it).
* JavaScript's `localeCompare`-based sorts are modelled with code-point
  string order, and case-insensitive regex tests with ASCII lowercasing;
  these agree with the real functions on the ASCII data involved.
* Network transports are oracles: an `Except`-valued function gives the
  outcome the FTP server produced for each request, and retry loops are
  replayed over a per-attempt outcome function, recording the attempt count
  and the back-off sleeps.
* Durable JSON files are `RawFile`: unreadable-or-blank, unparseable, or a
  parsed JSON value.
-/

namespace PubAi

/-! ## Generic string-list helpers -/

/-- `s.trim()` (strip leading and trailing whitespace), written over the
character list so that the kernel can evaluate it on literals. -/
def strTrim (s : String) : String :=
  ⟨((s.toList.dropWhile Char.isWhitespace).reverse.dropWhile Char.isWhitespace).reverse⟩

/-- `arr.sort((a, b) => a.localeCompare(b))`, with `localeCompare` modelled
as code-point comparison.  (The comparison is phrased on the character
lists, which is equivalent to `String`'s order and lets the kernel
evaluate sorts on literals.) -/
def sortStrings (l : List String) : List String :=
  l.insertionSort (fun a b => a.toList ≤ b.toList)

instance : IsTotal String (fun a b => a.toList ≤ b.toList) :=
  ⟨fun a b => le_total a.toList b.toList⟩

instance : IsTrans String (fun a b => a.toList ≤ b.toList) :=
  ⟨fun _ _ _ h1 h2 => le_trans h1 h2⟩

/-- `[...new Set(l)].sort((a, b) => a.localeCompare(b))`: the sorted,
duplicate-free enumeration of `l`. -/
def sortedDedup (l : List String) : List String :=
  sortStrings l.dedup

/-- JS `Set`-style insertion: add `p` if not already present. -/
def setAdd (l : List String) (p : String) : List String :=
  if l.contains p then l else l ++ [p]

/-- Association-list lookup, modelling JS object indexing `m[k]`. -/
def jsLookup {α : Type} (m : List (String × α)) (k : String) : Option α :=
  (m.find? (fun e => e.1 == k)).map (·.2)

/-! ## Path model -/

/-- Split a character list on `'/'` (`n` slashes give `n + 1` pieces,
empty pieces included). -/
def splitOnSlash : List Char → List (List Char)
  | [] => [[]]
  | c :: rest =>
    if c = '/' then [] :: splitOnSlash rest
    else
      match splitOnSlash rest with
      | [] => [[c]]
      | h :: t => (c :: h) :: t

/-- Join character-list pieces with `'/'`. -/
def joinSlash : List (List Char) → List Char
  | [] => []
  | [x] => x
  | x :: xs => x ++ '/' :: joinSlash xs

/-- `s.split('/')` on strings, as segment strings. -/
def splitSegs (s : String) : List String :=
  (splitOnSlash s.toList).map (fun cs => ⟨cs⟩)

/-- Join segment strings with `/` (the relative-path form `path.relative`
produces after the source's backslash replacement). -/
def joinSegs (l : List String) : String :=
  ⟨joinSlash (l.map String.toList)⟩

/-- A well-formed path segment: nonempty, not a dot link, no separator. -/
def WfSeg (s : String) : Prop :=
  s ≠ "" ∧ s ≠ "." ∧ s ≠ ".." ∧ '/' ∉ s.toList

instance : DecidablePred WfSeg := fun s => by
  unfold WfSeg; infer_instance

/-- An absolute path: the list of segments below the filesystem root. -/
abbrev AbsPath := List String

/-- `path.resolve(base, rel)` for a canonical absolute `base` and relative
`rel`: append `rel`'s segments, dropping empty and `.` segments and popping
one level per `..` (popping at the root stays at the root, as on POSIX). -/
def resolveSegs (base : AbsPath) (rel : String) : AbsPath :=
  (splitSegs rel).foldl
    (fun acc seg =>
      if seg = "" ∨ seg = "." then acc
      else if seg = ".." then acc.dropLast
      else acc ++ [seg])
    base

/-- `isPathInsideLocal(localPath, absolutePath)` from the source:
`path.relative(localPath, absolutePath)` is nonempty, does not start with
`..`, and is not absolute — for canonical absolute paths this says
`localPath` is a strict prefix of `absolutePath`. -/
def isPathInsideLocal (localRoot target : AbsPath) : Bool :=
  localRoot.isPrefixOf target && target ≠ localRoot

/-- `input.replace(/\\/g, '/').replace(/^\/+/, '')`. -/
def normalizeRelativePath (input : String) : String :=
  ⟨(input.toList.map (fun c => if c = '\\' then '/' else c)).dropWhile (fun c => c == '/')⟩

/-! ## Filesystem model -/

/-- The set of absolute paths of regular files. -/
abbrev Fs := List AbsPath

/-- `stat(p)` succeeds and `isFile()` holds. -/
def isFile (fs : Fs) (p : AbsPath) : Bool :=
  fs.contains p

/-- `copyFile(_, p)`: the target becomes a regular file. -/
def addFile (fs : Fs) (p : AbsPath) : Fs :=
  p :: fs

/-- `rm(p, { force: true })`. -/
def removeFile (fs : Fs) (p : AbsPath) : Fs :=
  fs.filter (fun q => q != p)

/-- The relative segment paths of the regular files strictly below
`localRoot` (the key set `collectLocalFileSnapshotMap` walks). -/
def collectLocalRelSegs (localRoot : AbsPath) (fs : Fs) : List (List String) :=
  fs.filterMap (fun ap =>
    if localRoot.isPrefixOf ap && ap != localRoot then some (ap.drop localRoot.length)
    else none)

/-- The relative path strings of the regular files below `localRoot`
(`path.relative(localPath, fullPath).replace(/\\/g, '/')` for each file). -/
def collectLocalRelPaths (localRoot : AbsPath) (fs : Fs) : List String :=
  (collectLocalRelSegs localRoot fs).map joinSegs

/-! ## Snapshots and the diff engine -/

/-- `LocalFileSnapshot`: the (truncated-ms mtime, byte size) fingerprint. -/
structure LocalFileSnapshot where
  mtimeMs : Int
  size : Int
deriving DecidableEq, Repr

/-- `LocalFileDiff`. -/
structure LocalFileDiff where
  upserted : List String
  deleted : List String
deriving DecidableEq, Repr

/-- `diffLocalFileSnapshotMap(before, after)` from the source: `upserted` =
keys of `after` that are new or whose fingerprint differs; `deleted` = keys
of `before` absent from `after`; both sorted. -/
def diffLocalFileSnapshotMap (before after : List (String × LocalFileSnapshot)) :
    LocalFileDiff :=
  let upserted := (after.map (·.1)).filter (fun relativePath =>
    match jsLookup before relativePath with
    | none => true
    | some prev =>
      match jsLookup after relativePath with
      | none => false
      | some cur => prev.mtimeMs != cur.mtimeMs || prev.size != cur.size)
  let deleted := (before.map (·.1)).filter (fun relativePath =>
    (jsLookup after relativePath).isNone)
  { upserted := sortStrings upserted, deleted := sortStrings deleted }

/-! ## JSON model and the durable-metadata readers -/

/-- A parsed JSON value. -/
inductive Jsonv where
  | null
  | bool (b : Bool)
  | num (n : Int)
  | str (s : String)
  | arr (items : List Jsonv)
  | obj (fields : List (String × Jsonv))
deriving Repr

/-- Property access `j[k]` on a parsed value (non-objects have no
properties; on `null` the source's access throws inside its `try`, which
lands in the same fallback branch as a missing property). -/
def jGet (j : Jsonv) (k : String) : Option Jsonv :=
  match j with
  | .obj fields => (fields.find? (fun f => f.1 == k)).map (·.2)
  | _ => none

/-- JS truthiness of a parsed JSON value. -/
def jsFalsy (v : Jsonv) : Bool :=
  match v with
  | .null => true
  | .bool b => !b
  | .num n => n == 0
  | .str s => s == ""
  | _ => false

/-- `typeof v === 'object' && v` entries: objects keep their fields, arrays
expose index keys, everything else (and `null`, which is falsy) has none. -/
def jsObjEntries (v : Jsonv) : Option (List (String × Jsonv)) :=
  match v with
  | .obj fields => some fields
  | .arr items => some (items.enum.map (fun e => (toString e.1, e.2)))
  | _ => none

/-- The state of one durable JSON file as the reader sees it. -/
inductive RawFile where
  | absent
  | invalid
  | json (j : Jsonv)

/-- `InitialBaselineSnapshot`. -/
structure InitialBaselineSnapshot where
  createdAt : String
  remotePath : String
  files : List String
deriving DecidableEq, Repr

/-- `SyncRuleState`. -/
structure SyncRuleState where
  trackedNewServerFiles : List String
deriving DecidableEq, Repr

/-- `readInitialBaseline` from the source: `null` on unreadable/blank/
unparseable input or a missing `files` array; otherwise keeps the string
entries, normalized, nonempty, sorted (note: not deduplicated). -/
def readInitialBaseline (r : RawFile) : Option InitialBaselineSnapshot :=
  match r with
  | .absent => none
  | .invalid => none
  | .json j =>
    match jGet j "files" with
    | some (.arr items) =>
      let createdAt := match jGet j "createdAt" with
        | some (.str s) => s
        | _ => ""
      let remotePath := match jGet j "remotePath" with
        | some (.str s) => s
        | _ => "/"
      some
        { createdAt := createdAt
          remotePath := remotePath
          files := sortStrings
            (((items.filterMap (fun it =>
                match it with
                | Jsonv.str s => some s
                | _ => none)).map normalizeRelativePath).filter (fun s => s != "")) }
    | _ => none

/-- `readSyncRuleState` from the source: empty state on unreadable/blank/
unparseable input; otherwise the string entries, normalized, nonempty,
deduplicated, sorted. -/
def readSyncRuleState (r : RawFile) : SyncRuleState :=
  match r with
  | .absent => ⟨[]⟩
  | .invalid => ⟨[]⟩
  | .json j =>
    let tracked := match jGet j "trackedNewServerFiles" with
      | some (.arr items) =>
        items.filterMap (fun it =>
          match it with
          | Jsonv.str s => some s
          | _ => none)
      | _ => []
    ⟨sortedDedup ((tracked.map normalizeRelativePath).filter (fun s => s != ""))⟩

/-- `writeSyncRuleState`'s normalization of the state it persists. -/
def writeSyncRuleState (state : SyncRuleState) : SyncRuleState :=
  ⟨sortedDedup ((state.trackedNewServerFiles.map normalizeRelativePath).filter
    (fun s => s != ""))⟩

/-- `DeltaManifest`; `files` keeps the stored JSON values unvalidated, as
the source's unchecked cast does. -/
structure DeltaManifest where
  updatedAt : String
  files : List (String × Jsonv)
deriving Repr

/-- `readDeltaManifest` from the source: empty manifest on unreadable/
blank/unparseable input; otherwise `updatedAt` if it is a string and the
stored `files` value if it is object-like — with no normalization,
deduplication, or validation of the entries. -/
def readDeltaManifest (r : RawFile) : DeltaManifest :=
  match r with
  | .absent => ⟨"", []⟩
  | .invalid => ⟨"", []⟩
  | .json j =>
    let updatedAt := match jGet j "updatedAt" with
      | some (.str s) => s
      | _ => ""
    let files := match jGet j "files" with
      | some v => (jsObjEntries v).getD []
      | none => []
    ⟨updatedAt, files⟩

/-! ## FTP transport: error classification, retry loop, operations -/

/-- An FTP-layer error, identified by its message. -/
structure FtpError where
  message : String
deriving DecidableEq, Repr

deriving instance DecidableEq for Except

/-- ASCII-lowercased characters of a string (models the `/i` regex flag on
the ASCII messages involved). -/
def lcChars (s : String) : List Char :=
  s.toList.map Char.toLower

/-- Case-insensitive substring test. -/
def containsCI (s pat : String) : Bool :=
  decide (lcChars pat <:+: lcChars s)

/-- `isRetryableFtpError`: `/ETIMEDOUT|ECONNRESET|EPIPE|Socket closed|data
connection/i.test(message)`. -/
def isRetryableFtpError (e : FtpError) : Bool :=
  containsCI e.message "ETIMEDOUT" || containsCI e.message "ECONNRESET" ||
    containsCI e.message "EPIPE" || containsCI e.message "Socket closed" ||
    containsCI e.message "data connection"

/-- `isPermissionDeniedFtpError`: `/(^|\\s)550\\b|Permission denied/i`.
In a regex literal `\\s` and `\\b` match a literal backslash followed by
`s` resp. `b`, so the first alternative only matches messages containing
the literal text `550\b` at the start or after `\s`; only the
`Permission denied` alternative matches real FTP replies. -/
def isPermissionDeniedFtpError (e : FtpError) : Bool :=
  let l := lcChars e.message
  (lcChars "550\\b").isPrefixOf l || decide (lcChars "\\s550\\b" <:+: l) ||
    containsCI e.message "Permission denied"

/-- `MAX_RETRY`. -/
def MAX_RETRY : Nat := 3

/-- The linear back-off unit: `attempt * 1500` ms. -/
def FTP_RETRY_SLEEP_MS : Nat := 1500

/-- The observable run of a retried FTP operation: how many connection
attempts were made, the back-off sleeps between them (ms), and the final
outcome. -/
structure RetryTrace (α : Type) where
  attempts : Nat
  sleeps : List Nat
  result : Except FtpError α
deriving Repr

/-- The `for (attempt = 1; attempt <= MAX_RETRY; attempt += 1)` body shared
by the three transport operations: run the attempt; on success return; on a
non-retryable error or on the last attempt rethrow; otherwise sleep
`attempt * 1500` ms and retry with a fresh connection. -/
def ftpRetryFrom {α : Type} (body : Nat → Except FtpError α) :
    Nat → Nat → RetryTrace α
  | _, 0 => ⟨0, [], .error ⟨"unreachable"⟩⟩
  | attempt, remaining + 1 =>
    match body attempt with
    | .ok a => ⟨1, [], .ok a⟩
    | .error e =>
      if !isRetryableFtpError e || remaining == 0 then ⟨1, [], .error e⟩
      else
        let rest := ftpRetryFrom body (attempt + 1) remaining
        ⟨rest.attempts + 1, attempt * FTP_RETRY_SLEEP_MS :: rest.sleeps, rest.result⟩

/-- Run the retry loop from attempt 1 with `MAX_RETRY` attempts. -/
def ftpRetryLoop {α : Type} (body : Nat → Except FtpError α) : RetryTrace α :=
  ftpRetryFrom body 1 MAX_RETRY

/-- `normalizeRemotePath`. -/
def normalizeRemotePath (rawPath : String) : String :=
  let trimmed := strTrim rawPath
  if trimmed == "" || trimmed == "." then "/"
  else if trimmed.toList.head? = some '/' then trimmed
  else "/" ++ trimmed

/-- `joinRemotePath` (strips one trailing slash from the base), written
over the character list so that the kernel can evaluate it. -/
def joinRemotePath (basePath name : String) : String :=
  let cs := basePath.toList
  let trimmed : List Char := if cs.getLast? = some '/' then cs.dropLast else cs
  if trimmed = [] then ⟨'/' :: name.toList⟩ else ⟨trimmed ++ '/' :: name.toList⟩

/-- `downloadInitialSkin` with its per-attempt work (connect, list, clear,
recursive download, count) abstracted as `body`: empty host fails before
any attempt, otherwise the shared retry loop runs. -/
def downloadInitialSkin {α : Type} (host : String) (body : Nat → Except FtpError α) :
    RetryTrace α :=
  if strTrim host == "" then ⟨0, [], .error ⟨"FTP host가 비어 있습니다."⟩⟩
  else ftpRetryLoop body

/-- `uploadDeltaFiles` with its per-attempt work (connect, ensure remote
directories, upload each file) abstracted as `body`. -/
def uploadDeltaFiles {α : Type} (host : String) (body : Nat → Except FtpError α) :
    RetryTrace α :=
  if strTrim host == "" then ⟨0, [], .error ⟨"FTP host가 비어 있습니다."⟩⟩
  else ftpRetryLoop body

/-- The per-item delete loop of `deleteRemoteFiles`: each `client.remove`
failure classified permission-denied is skipped (not counted), any other
failure is rethrown, successes are counted. -/
def deleteRemoteFilesBody (removeOutcome : String → Option FtpError)
    (remotePath : String) : List String → Except FtpError Nat
  | [] => .ok 0
  | relativePath :: rest =>
    let remoteFilePath := joinRemotePath remotePath (normalizeRelativePath relativePath)
    match removeOutcome remoteFilePath with
    | some e =>
      if isPermissionDeniedFtpError e then deleteRemoteFilesBody removeOutcome remotePath rest
      else .error e
    | none =>
      match deleteRemoteFilesBody removeOutcome remotePath rest with
      | .ok n => .ok (n + 1)
      | .error e => .error e

/-- `deleteRemoteFiles`: empty host fails before any attempt; otherwise
each attempt connects (`accessOutcome`) and runs the per-item delete loop,
under the shared retry policy. -/
def deleteRemoteFiles (host : String) (accessOutcome : Nat → Option FtpError)
    (removeOutcome : Nat → String → Option FtpError) (remotePath : String)
    (relativePaths : List String) : RetryTrace Nat :=
  if strTrim host == "" then ⟨0, [], .error ⟨"FTP host가 비어 있습니다."⟩⟩
  else
    ftpRetryLoop (fun attempt =>
      match accessOutcome attempt with
      | some e => .error e
      | none =>
        deleteRemoteFilesBody (removeOutcome attempt) (normalizeRemotePath remotePath)
          relativePaths)

/-- One entry of a remote listing. -/
inductive REntry where
  | file (name : String)
  | dir (name : String) (children : List REntry)
  | other (name : String)
deriving Repr

mutual

/-- `downloadDirectoryRecursive`: list the directory (a permission-denied
listing failure skips the whole subtree, any other failure is rethrown),
then walk the entries.  Returns the remote paths of the files downloaded. -/
def downloadDirectoryRecursive (listOutcome dlOutcome : String → Option FtpError)
    (entries : List REntry) (remoteDir : String) : Except FtpError (List String) :=
  match listOutcome remoteDir with
  | some e => if isPermissionDeniedFtpError e then .ok [] else .error e
  | none => ddrEntries listOutcome dlOutcome entries remoteDir

/-- The entry loop of `downloadDirectoryRecursive`: skip `.`/`..`, recurse
into directories, download files (a permission-denied download failure
skips the file, any other failure is rethrown), ignore non-file
non-directory entries. -/
def ddrEntries (listOutcome dlOutcome : String → Option FtpError) :
    List REntry → String → Except FtpError (List String)
  | [], _ => .ok []
  | entry :: rest, remoteDir =>
    match entry with
    | .dir name children =>
      if name == "." || name == ".." then ddrEntries listOutcome dlOutcome rest remoteDir
      else
        match downloadDirectoryRecursive listOutcome dlOutcome children
            (joinRemotePath remoteDir name) with
        | .error e => .error e
        | .ok sub =>
          match ddrEntries listOutcome dlOutcome rest remoteDir with
          | .error e => .error e
          | .ok more => .ok (sub ++ more)
    | .file name =>
      if name == "." || name == ".." then ddrEntries listOutcome dlOutcome rest remoteDir
      else
        let remoteEntryPath := joinRemotePath remoteDir name
        match dlOutcome remoteEntryPath with
        | some e =>
          if isPermissionDeniedFtpError e then ddrEntries listOutcome dlOutcome rest remoteDir
          else .error e
        | none =>
          match ddrEntries listOutcome dlOutcome rest remoteDir with
          | .error e => .error e
          | .ok more => .ok (remoteEntryPath :: more)
    | .other _ => ddrEntries listOutcome dlOutcome rest remoteDir

end

/-! ## Deploy (FTP delta) -/

/-- Strict equality `v === n` of a stored JSON value against a number
(`undefined`/missing and non-numbers always differ). -/
def jsonvIsNum (v : Option Jsonv) (n : Int) : Bool :=
  match v with
  | some (.num m) => m == n
  | _ => false

/-- The change test of `detectChangedFiles`: the manifest has no (truthy)
entry for the path, or the stored `mtimeMs`/`size` fields are not strictly
equal to the snapshot fingerprint. -/
def fingerprintDiffers (manifest : DeltaManifest) (item : String × LocalFileSnapshot) : Bool :=
  match jsLookup manifest.files item.1 with
  | none => true
  | some prev =>
    if jsFalsy prev then true
    else
      !(jsonvIsNum (jGet prev "mtimeMs") item.2.mtimeMs &&
        jsonvIsNum (jGet prev "size") item.2.size)

/-- `detectChangedFiles`: the snapshot entries whose fingerprint differs
from the manifest. -/
def detectChangedFiles (snapshot : List (String × LocalFileSnapshot))
    (manifest : DeltaManifest) : List (String × LocalFileSnapshot) :=
  snapshot.filter (fingerprintDiffers manifest)

/-- `toDeltaManifest`. -/
def toDeltaManifest (snapshot : List (String × LocalFileSnapshot))
    (updatedAt : String) : DeltaManifest :=
  ⟨updatedAt, snapshot.map (fun item =>
    (item.1, Jsonv.obj [("mtimeMs", Jsonv.num item.2.mtimeMs),
                        ("size", Jsonv.num item.2.size)]))⟩

/-- A remote mutation requested of the transport. -/
inductive FtpAction where
  | upload (relativePath : String)
  | deleteRemote (relativePath : String)
deriving DecidableEq, Repr

/-- The observable outcome of one `deployFtpDelta` run. -/
structure DeployFtpOutcome where
  actions : List FtpAction
  manifestWritten : Option DeltaManifest
  uploadedCount : Nat
  message : String
deriving Repr

/-- `deployFtpDelta`: require credentials, read the previous manifest
(absent/unreadable → empty), detect changed files, return early (without
touching the manifest) when nothing changed, otherwise upload the changed
set and persist the manifest of the fresh snapshot. -/
def deployFtpDelta (ftpHost ftpUser ftpPassword : String)
    (snapshot : List (String × LocalFileSnapshot)) (prevManifestRaw : RawFile)
    (uploadOutcome : Except FtpError Unit) (finishedAt : String) :
    Except FtpError DeployFtpOutcome :=
  if ftpHost == "" || ftpUser == "" || ftpPassword == "" then
    .error ⟨"배포에 필요한 FTP 정보가 비어 있습니다."⟩
  else if (detectChangedFiles snapshot (readDeltaManifest prevManifestRaw)).isEmpty then
    .ok { actions := []
          manifestWritten := none
          uploadedCount := 0
          message := "변경 파일 없음 (" ++ toString snapshot.length ++ " files scanned)" }
  else
    match uploadOutcome with
    | .error e => .error e
    | .ok _ =>
      .ok { actions := (detectChangedFiles snapshot
              (readDeltaManifest prevManifestRaw)).map (fun item => FtpAction.upload item.1)
            manifestWritten := some (toDeltaManifest snapshot finishedAt)
            uploadedCount := (detectChangedFiles snapshot (readDeltaManifest prevManifestRaw)).length
            message := "변경 파일 " ++ toString (detectChangedFiles snapshot
              (readDeltaManifest prevManifestRaw)).length ++ "개 배포 완료" }

/-! ## Orchestration: auto-upload -/

/-- `SolutionType`. -/
inductive SolutionType where
  | cafe24
  | godomall
  | makeshop
deriving DecidableEq, Repr

/-- `AutoUploadBatchResult` (the structured result the operation returns). -/
structure AutoUploadBatchResult where
  attempted : Bool
  uploaded : Bool
  uploadedCount : Nat
  deletedCount : Nat
  uploadedFiles : List String
  deletedFiles : List String
  restoredProtectedFiles : List String
  manualDeleteSkippedFiles : List String
  message : String
  uploadedAt : Option String
deriving DecidableEq, Repr

/-- The running state of the deleted-path classification loop of
`autoUploadChangedFiles` (lines 923–955 of the source). -/
structure DelClass where
  upsertSet : List String
  protectedRestored : List String
  protectedMissingRaw : List String
  deletableOnServer : List String
  manualDeleteSkipped : List String
  fs : Fs
deriving DecidableEq, Repr

/-- One iteration of the deleted-path loop: a baseline path is restored
from the raw mirror (when the mirror copy exists and the target resolves
inside the working copy) and re-queued for upload; a tracked-new path
becomes remotely deletable; everything else is skipped. -/
def classifyDeletedStep (localRoot rawRoot : AbsPath) (baselineSet trackedSet : List String)
    (st : DelClass) (relativePath : String) : DelClass :=
  if baselineSet.contains relativePath then
    if !isFile st.fs (resolveSegs rawRoot relativePath) then
      { st with protectedMissingRaw := st.protectedMissingRaw ++ [relativePath] }
    else if !isPathInsideLocal localRoot (resolveSegs localRoot relativePath) then st
    else
      { st with
        fs := addFile st.fs (resolveSegs localRoot relativePath)
        upsertSet := setAdd st.upsertSet relativePath
        protectedRestored := st.protectedRestored ++ [relativePath] }
  else if trackedSet.contains relativePath then
    { st with deletableOnServer := st.deletableOnServer ++ [relativePath] }
  else
    { st with manualDeleteSkipped := st.manualDeleteSkipped ++ [relativePath] }

/-- The whole deleted-path classification loop. -/
def classifyDeleted (localRoot rawRoot : AbsPath) (baselineSet trackedSet : List String)
    (fs : Fs) (upsertSet0 normalizedDeleted : List String) : DelClass :=
  normalizedDeleted.foldl (classifyDeletedStep localRoot rawRoot baselineSet trackedSet)
    { upsertSet := upsertSet0
      protectedRestored := []
      protectedMissingRaw := []
      deletableOnServer := []
      manualDeleteSkipped := []
      fs := fs }

/-- The inputs of one `autoUploadChangedFiles` call: the configuration, the
two path-list arguments, the metadata state the readers produced, the
filesystem, and the transport outcomes. -/
structure AutoUploadArgs where
  solutionType : SolutionType
  ftpHost : String
  ftpUser : String
  ftpPassword : String
  upsertedPaths : List String
  deletedPaths : List String
  baseline : Option InitialBaselineSnapshot
  syncState : SyncRuleState
  fs : Fs
  uploadOutcome : List String → Except FtpError Unit
  deleteOutcome : List String → Except FtpError Nat
  uploadTs : String
  nowTs : String

/-- The observable outcome of one `autoUploadChangedFiles` call: the
structured result, the final filesystem, the persisted sync state (if
written), the set of paths actually requested for remote deletion, the
final upsert set and deletable set, and the transport error caught by the
`catch` block (if any). -/
structure AutoUploadOutcome where
  result : AutoUploadBatchResult
  fs : Fs
  syncStateWritten : Option SyncRuleState
  remoteDeleteRequests : List String
  upsertSetFinal : List String
  deletableOnServer : List String
  caughtError : Option FtpError

/-- `normalizedUpserts` of `autoUploadChangedFiles`. -/
def autoUploadNormalizedUpserts (a : AutoUploadArgs) : List String :=
  sortedDedup ((a.upsertedPaths.map normalizeRelativePath).filter (fun s => s != ""))

/-- `normalizedDeleted` of `autoUploadChangedFiles`. -/
def autoUploadNormalizedDeleted (a : AutoUploadArgs) : List String :=
  sortedDedup ((a.deletedPaths.map normalizeRelativePath).filter (fun s => s != ""))

/-- `baselineSet` of `autoUploadChangedFiles`: the baseline paths (empty if no
baseline), re-normalized.  (A JS `Set`; only membership is used, so the list
of normalized paths represents it.) -/
def baselineSetOf (a : AutoUploadArgs) : List String :=
  ((a.baseline.map (·.files)).getD []).map normalizeRelativePath

/-- `trackedSet` of `autoUploadChangedFiles`: the tracked-new paths,
normalized and deduplicated (a JS `Set`, which stores each value once). -/
def trackedSetOf (a : AutoUploadArgs) : List String :=
  (a.syncState.trackedNewServerFiles.map normalizeRelativePath).dedup

/-- The classification the deleted-path loop of `autoUploadChangedFiles`
produces. -/
def autoUploadCls (localRoot rawRoot : AbsPath) (a : AutoUploadArgs) : DelClass :=
  classifyDeleted localRoot rawRoot (baselineSetOf a) (trackedSetOf a) a.fs
    (autoUploadNormalizedUpserts a) (autoUploadNormalizedDeleted a)

/-- `uploadFiles` of `autoUploadChangedFiles`: the sorted upsert set,
filtered to paths resolving strictly inside the working copy to an existing
regular file. -/
def autoUploadUploadFiles (localRoot rawRoot : AbsPath) (a : AutoUploadArgs) : List String :=
  (sortStrings (autoUploadCls localRoot rawRoot a).upsertSet).filter (fun relativePath =>
    isPathInsideLocal localRoot (resolveSegs localRoot relativePath) &&
      isFile (autoUploadCls localRoot rawRoot a).fs (resolveSegs localRoot relativePath))

/-- The tracked-new set after a successful transport phase: add the
uploaded non-baseline paths, then drop every path of the deletable set. -/
def autoUploadTrackedAfter (localRoot rawRoot : AbsPath) (a : AutoUploadArgs) : List String :=
  (autoUploadCls localRoot rawRoot a).deletableOnServer.foldl
    (fun acc item => acc.erase item)
    ((autoUploadUploadFiles localRoot rawRoot a).foldl
      (fun acc relativePath =>
        if (baselineSetOf a).contains relativePath then acc else setAdd acc relativePath)
      (trackedSetOf a))

/-- The `catch` block of `autoUploadChangedFiles`: the transport error is
swallowed and a structured failure summary is returned; no state is
persisted. -/
def autoUploadFailureOutcome (cls : DelClass) (requests : List String) (e : FtpError) :
    AutoUploadOutcome :=
  { result :=
      { attempted := true
        uploaded := false
        uploadedCount := 0
        deletedCount := 0
        uploadedFiles := []
        deletedFiles := []
        restoredProtectedFiles := cls.protectedRestored
        manualDeleteSkippedFiles := cls.manualDeleteSkipped
        message := "자동 업로드 실패: " ++ e.message
        uploadedAt := none }
    fs := cls.fs
    syncStateWritten := none
    remoteDeleteRequests := requests
    upsertSetFinal := cls.upsertSet
    deletableOnServer := cls.deletableOnServer
    caughtError := some e }

/-- The early return of `autoUploadChangedFiles` for non-FTP solution
types (the deleted-path classification and its protective restores have
already run). -/
def autoUploadNonFtpOutcome (localRoot rawRoot : AbsPath) (a : AutoUploadArgs) :
    AutoUploadOutcome :=
  { result :=
      { attempted := false
        uploaded := false
        uploadedCount := 0
        deletedCount := 0
        uploadedFiles := []
        deletedFiles := []
        restoredProtectedFiles := (autoUploadCls localRoot rawRoot a).protectedRestored
        manualDeleteSkippedFiles := (autoUploadCls localRoot rawRoot a).manualDeleteSkipped
        message := "자동 업로드 대상 솔루션이 아닙니다."
        uploadedAt := none }
    fs := (autoUploadCls localRoot rawRoot a).fs
    syncStateWritten := none
    remoteDeleteRequests := []
    upsertSetFinal := (autoUploadCls localRoot rawRoot a).upsertSet
    deletableOnServer := (autoUploadCls localRoot rawRoot a).deletableOnServer
    caughtError := none }

/-- The early return of `autoUploadChangedFiles` when the FTP credentials
are incomplete: a non-fatal "skipped" result. -/
def autoUploadNoCredsOutcome (localRoot rawRoot : AbsPath) (a : AutoUploadArgs) :
    AutoUploadOutcome :=
  { result :=
      { attempted := true
        uploaded := false
        uploadedCount := 0
        deletedCount := 0
        uploadedFiles := []
        deletedFiles := []
        restoredProtectedFiles := (autoUploadCls localRoot rawRoot a).protectedRestored
        manualDeleteSkippedFiles := (autoUploadCls localRoot rawRoot a).manualDeleteSkipped
        message :=
          if (autoUploadCls localRoot rawRoot a).protectedRestored.length > 0 then
            "최초동기화 파일입니다. " ++
              toString (autoUploadCls localRoot rawRoot a).protectedRestored.length ++
              "개 복구됨 (업로드는 FTP 설정 필요)"
          else "FTP 설정이 비어 있어 자동 업로드를 건너뜁니다."
        uploadedAt := none }
    fs := (autoUploadCls localRoot rawRoot a).fs
    syncStateWritten := none
    remoteDeleteRequests := []
    upsertSetFinal := (autoUploadCls localRoot rawRoot a).upsertSet
    deletableOnServer := (autoUploadCls localRoot rawRoot a).deletableOnServer
    caughtError := none }

/-- The upload phase: call `uploadDeltaFiles` when the upload set is
nonempty; on success `uploadedCount` is the whole set's size. -/
def autoUploadUploadPhase (localRoot rawRoot : AbsPath) (a : AutoUploadArgs) :
    Except FtpError (Nat × String) :=
  if (autoUploadUploadFiles localRoot rawRoot a).length > 0 then
    match a.uploadOutcome (autoUploadUploadFiles localRoot rawRoot a) with
    | .error e => .error e
    | .ok _ => .ok ((autoUploadUploadFiles localRoot rawRoot a).length, a.uploadTs)
  else .ok (0, "")

/-- The delete phase: call `deleteRemoteFiles` on the deletable set when it
is nonempty. -/
def autoUploadDeletePhase (localRoot rawRoot : AbsPath) (a : AutoUploadArgs) :
    Except FtpError Nat :=
  if (autoUploadCls localRoot rawRoot a).deletableOnServer.length > 0 then
    a.deleteOutcome (autoUploadCls localRoot rawRoot a).deletableOnServer
  else .ok 0

/-- The summary message of a successful `autoUploadChangedFiles`. -/
def autoUploadSuccessMessage (localRoot rawRoot : AbsPath) (a : AutoUploadArgs)
    (uploadedCount deletedCount : Nat) : String :=
  String.intercalate " / "
    (["교체/추가 " ++ toString uploadedCount ++ "개 업로드 완료"] ++
      (if deletedCount > 0 then
        ["신규 파일 " ++ toString deletedCount ++ "개 서버 삭제 완료"] else []) ++
      (if (autoUploadCls localRoot rawRoot a).protectedRestored.length > 0 then
        ["최초동기화 파일입니다. " ++
          toString (autoUploadCls localRoot rawRoot a).protectedRestored.length ++ "개 복구됨"]
      else []) ++
      (if (autoUploadCls localRoot rawRoot a).manualDeleteSkipped.length > 0 then
        ["삭제 스킵 " ++ toString (autoUploadCls localRoot rawRoot a).manualDeleteSkipped.length ++
          "개(신규 추적 아님)"]
      else []) ++
      (if (autoUploadCls localRoot rawRoot a).protectedMissingRaw.length > 0 then
        ["raw 없음 " ++ toString (autoUploadCls localRoot rawRoot a).protectedMissingRaw.length ++
          "개 복구 불가"]
      else []))

/-- The outcome of a fully successful `autoUploadChangedFiles`: counts and
lists reported, the sync-rule state persisted. -/
def autoUploadSuccessOutcome (localRoot rawRoot : AbsPath) (a : AutoUploadArgs)
    (uploadedCount : Nat) (uploadedAt : String) (deletedCount : Nat) : AutoUploadOutcome :=
  { result :=
      { attempted := true
        uploaded := uploadedCount > 0 || deletedCount > 0
        uploadedCount := uploadedCount
        deletedCount := deletedCount
        uploadedFiles := autoUploadUploadFiles localRoot rawRoot a
        deletedFiles := (autoUploadCls localRoot rawRoot a).deletableOnServer
        restoredProtectedFiles := (autoUploadCls localRoot rawRoot a).protectedRestored
        manualDeleteSkippedFiles := (autoUploadCls localRoot rawRoot a).manualDeleteSkipped
        message := autoUploadSuccessMessage localRoot rawRoot a uploadedCount deletedCount
        uploadedAt := some (if uploadedAt != "" then uploadedAt else a.nowTs) }
    fs := (autoUploadCls localRoot rawRoot a).fs
    syncStateWritten := some (writeSyncRuleState ⟨autoUploadTrackedAfter localRoot rawRoot a⟩)
    remoteDeleteRequests := (autoUploadCls localRoot rawRoot a).deletableOnServer
    upsertSetFinal := (autoUploadCls localRoot rawRoot a).upsertSet
    deletableOnServer := (autoUploadCls localRoot rawRoot a).deletableOnServer
    caughtError := none }

/-- `autoUploadChangedFiles` (source lines 903–1126): normalize and dedup
both path lists, classify the deletions against baseline and tracked-new
state (restoring protected baseline files from the raw mirror), bail out on
non-FTP solutions and on empty credentials, build the upload set from the
upsert set (existing regular files strictly inside the working copy),
upload then delete via the transport, update the sync-rule state, and
compose the summary; a transport error is caught and reported as a
structured failure result. -/
def autoUploadChangedFiles (localRoot rawRoot : AbsPath) (a : AutoUploadArgs) :
    AutoUploadOutcome :=
  if a.solutionType != SolutionType.cafe24 && a.solutionType != SolutionType.godomall then
    autoUploadNonFtpOutcome localRoot rawRoot a
  else if a.ftpHost == "" || a.ftpUser == "" || a.ftpPassword == "" then
    autoUploadNoCredsOutcome localRoot rawRoot a
  else
    match autoUploadUploadPhase localRoot rawRoot a with
    | .error e => autoUploadFailureOutcome (autoUploadCls localRoot rawRoot a) [] e
    | .ok (uploadedCount, uploadedAt) =>
      match autoUploadDeletePhase localRoot rawRoot a with
      | .error e => autoUploadFailureOutcome (autoUploadCls localRoot rawRoot a)
          (autoUploadCls localRoot rawRoot a).deletableOnServer e
      | .ok deletedCount =>
        autoUploadSuccessOutcome localRoot rawRoot a uploadedCount uploadedAt deletedCount

/-! ## Orchestration: restore -/

/-- The copy loop of `restoreBaselineFilesToLocal`: copy each requested
path from the raw mirror into the working copy when the mirror copy is a
regular file and the target resolves strictly inside the working copy,
collecting the restored paths in loop order. -/
def restoreBaselineFold (localRoot rawRoot : AbsPath) (fs0 : Fs)
    (baselineFiles : List String) : Fs × List String :=
  baselineFiles.foldl
    (fun (acc : Fs × List String) relativePath =>
      if !isFile acc.1 (resolveSegs rawRoot relativePath) then acc
      else if !isPathInsideLocal localRoot (resolveSegs localRoot relativePath) then acc
      else (addFile acc.1 (resolveSegs localRoot relativePath), acc.2 ++ [relativePath]))
    (fs0, [])

/-- `restoreBaselineFilesToLocal`: run the copy loop and report the
restored paths, sorted. -/
def restoreBaselineFilesToLocal (localRoot rawRoot : AbsPath) (fs0 : Fs)
    (baselineFiles : List String) : Fs × List String :=
  ((restoreBaselineFold localRoot rawRoot fs0 baselineFiles).1,
    sortStrings (restoreBaselineFold localRoot rawRoot fs0 baselineFiles).2)

/-- The removal loop of `replaceLocalWithRawBaseline`: delete every file
under the working copy whose relative path is not a baseline path. -/
def removeNonBaselineLocals (localRoot : AbsPath) (fs0 : Fs)
    (baselineFiles : List String) : Fs :=
  ((collectLocalRelPaths localRoot fs0).filter (fun p => !baselineFiles.contains p)).foldl
    (fun acc relativePath =>
      if !isPathInsideLocal localRoot (resolveSegs localRoot relativePath) then acc
      else removeFile acc (resolveSegs localRoot relativePath))
    fs0

/-- `replaceLocalWithRawBaseline`: delete every local file whose relative
path is not a baseline path, then restore the baseline files from the raw
mirror. -/
def replaceLocalWithRawBaseline (localRoot rawRoot : AbsPath) (fs0 : Fs)
    (baselineFiles : List String) : Fs :=
  (restoreBaselineFilesToLocal localRoot rawRoot
    (removeNonBaselineLocals localRoot fs0 baselineFiles) baselineFiles).1

/-- The inputs of one `runRestoreInitial` call. -/
structure RestoreArgs where
  solutionType : SolutionType
  ftpHost : String
  ftpUser : String
  ftpPassword : String
  baseline : Option InitialBaselineSnapshot
  syncState : SyncRuleState
  fs : Fs
  uploadOutcome : List String → Except FtpError Unit
  deleteOutcome : List String → Except FtpError Nat

/-- The counts and message `runRestoreInitial` reports. -/
structure ProjectRestoreResult where
  restoredFileCount : Nat
  deletedFileCount : Nat
  message : String
deriving DecidableEq, Repr

/-- The observable outcome of a completed `runRestoreInitial`. -/
structure RestoreOutcome where
  result : ProjectRestoreResult
  fs : Fs
  uploadedRelPaths : List String
  remoteDeleteRequests : List String
  syncStateWritten : SyncRuleState

/-- The upload set of `runRestoreInitial`: every baseline file that still
exists as a regular file in the raw mirror (checked after the local
replacement). -/
def restoreUploadFiles (localRoot rawRoot : AbsPath) (a : RestoreArgs)
    (b : InitialBaselineSnapshot) : List String :=
  b.files.filter (fun relativePath =>
    isFile (replaceLocalWithRawBaseline localRoot rawRoot a.fs b.files)
      (resolveSegs rawRoot relativePath))

/-- The remote-deletable set of `runRestoreInitial`:
`trackedNewServerFiles − baseline.files`. -/
def restoreDeletable (a : RestoreArgs) (b : InitialBaselineSnapshot) : List String :=
  a.syncState.trackedNewServerFiles.filter
    (fun relativePath => !b.files.contains relativePath)

/-- The delete phase of `runRestoreInitial`: call `deleteRemoteFiles` only
when the deletable set is nonempty. -/
def restoreDeletePhase (a : RestoreArgs) (b : InitialBaselineSnapshot) :
    Except FtpError Nat :=
  if (restoreDeletable a b).length > 0 then a.deleteOutcome (restoreDeletable a b)
  else .ok 0

/-- `runRestoreInitial` (source lines 797–886): only for the FTP solution
types with complete credentials and a nonempty baseline; replace the
working copy with the raw baseline, upload every baseline file still
present in the mirror, delete the tracked-new files that are not baseline
paths from the server, and clear the sync-rule state.  Transport errors
propagate (no catch). -/
def runRestoreInitial (localRoot rawRoot : AbsPath) (a : RestoreArgs) :
    Except FtpError RestoreOutcome :=
  if a.solutionType != SolutionType.cafe24 && a.solutionType != SolutionType.godomall then
    .error ⟨"최초 상태 복구는 Cafe24/Godomall에서만 지원합니다."⟩
  else if a.ftpHost == "" || a.ftpUser == "" || a.ftpPassword == "" then
    .error ⟨"FTP 접속 정보가 부족합니다. host/user/password를 확인하세요."⟩
  else
    match a.baseline with
    | none => .error ⟨"최초 동기화 기준점이 없습니다. 먼저 최초 동기화를 실행하세요."⟩
    | some baseline =>
      if baseline.files.isEmpty then
        .error ⟨"최초 동기화 기준점이 없습니다. 먼저 최초 동기화를 실행하세요."⟩
      else
        match a.uploadOutcome (restoreUploadFiles localRoot rawRoot a baseline) with
        | .error e => .error e
        | .ok _ =>
          match restoreDeletePhase a baseline with
          | .error e => .error e
          | .ok deletedCount =>
            .ok { result :=
                    { restoredFileCount := (restoreUploadFiles localRoot rawRoot a baseline).length
                      deletedFileCount := deletedCount
                      message := "최초 상태 복구 완료: 교체 " ++
                        toString (restoreUploadFiles localRoot rawRoot a baseline).length ++
                        "개, 신규삭제 " ++ toString deletedCount ++ "개" }
                  fs := replaceLocalWithRawBaseline localRoot rawRoot a.fs baseline.files
                  uploadedRelPaths := restoreUploadFiles localRoot rawRoot a baseline
                  remoteDeleteRequests := restoreDeletable a baseline
                  syncStateWritten := writeSyncRuleState ⟨[]⟩ }

/-! ## Concrete instances used by individual claim theorems -/

/-- Working-copy and mirror layout shared by the concrete instances:
`["p", "local"]` and `["p", "raw"]` under the project directory `p`. -/
def c4CtrArgs : AutoUploadArgs :=
  { solutionType := SolutionType.cafe24
    ftpHost := "h"
    ftpUser := "u"
    ftpPassword := "pw"
    upsertedPaths := ["d.txt"]
    deletedPaths := []
    baseline := some ⟨"t0", "/", ["a.txt"]⟩
    syncState := ⟨[]⟩
    fs := [["p", "raw", "a.txt"], ["p", "local", "d.txt"]]
    uploadOutcome := fun _ =>
      match (uploadDeltaFiles "h"
          (fun _ => (Except.error ⟨"ETIMEDOUT"⟩ : Except FtpError Unit))).result with
      | .ok u => .ok u
      | .error e => .error e
    deleteOutcome := fun l => .ok l.length
    uploadTs := "t1"
    nowTs := "t2" }

/-- C1's counterexample input: the baseline contains the traversal path
`"../raw/x"`, whose raw-mirror resolution `p/raw/x` is a regular file
genuinely inside the mirror, but whose working-copy resolution escapes
`p/local`. -/
def c1CtrArgs : AutoUploadArgs :=
  { solutionType := SolutionType.cafe24
    ftpHost := "h"
    ftpUser := "u"
    ftpPassword := "pw"
    upsertedPaths := []
    deletedPaths := ["../raw/x"]
    baseline := some ⟨"t0", "/", ["../raw/x"]⟩
    syncState := ⟨[]⟩
    fs := [["p", "raw", "x"]]
    uploadOutcome := fun _ => .ok ()
    deleteOutcome := fun l => .ok l.length
    uploadTs := "t1"
    nowTs := "t2" }

/-- C1's witness input (the spec's own scenario): baseline
`{a.txt, b/c.txt}`, the user deleted `a.txt` and created `d.txt`. -/
def c1WitArgs : AutoUploadArgs :=
  { solutionType := SolutionType.cafe24
    ftpHost := "h"
    ftpUser := "u"
    ftpPassword := "pw"
    upsertedPaths := ["d.txt"]
    deletedPaths := ["a.txt"]
    baseline := some ⟨"t0", "/", ["a.txt", "b/c.txt"]⟩
    syncState := ⟨[]⟩
    fs := [["p", "raw", "a.txt"], ["p", "raw", "b", "c.txt"],
           ["p", "local", "b", "c.txt"], ["p", "local", "d.txt"]]
    uploadOutcome := fun _ => .ok ()
    deleteOutcome := fun l => .ok l.length
    uploadTs := "t1"
    nowTs := "t2" }

/-- C2's counterexample input: the deleted path `"/"` normalizes to the
empty string and is silently dropped, although it is neither a baseline
path nor tracked-new. -/
def c2CtrArgs : AutoUploadArgs :=
  { solutionType := SolutionType.cafe24
    ftpHost := "h"
    ftpUser := "u"
    ftpPassword := "pw"
    upsertedPaths := []
    deletedPaths := ["/"]
    baseline := some ⟨"t0", "/", ["a.txt"]⟩
    syncState := ⟨[]⟩
    fs := [["p", "raw", "a.txt"]]
    uploadOutcome := fun _ => .ok ()
    deleteOutcome := fun l => .ok l.length
    uploadTs := "t1"
    nowTs := "t2" }

/-- C7's counterexample input: `d.txt` is tracked-new and deleted locally;
the remote deletion is skipped as permission denied (`deletedCount = 0`),
yet the path is untracked anyway. -/
def c7CtrArgs : AutoUploadArgs :=
  { solutionType := SolutionType.cafe24
    ftpHost := "h"
    ftpUser := "u"
    ftpPassword := "pw"
    upsertedPaths := []
    deletedPaths := ["d.txt"]
    baseline := some ⟨"t0", "/", ["a.txt"]⟩
    syncState := ⟨["d.txt"]⟩
    fs := [["p", "raw", "a.txt"]]
    uploadOutcome := fun _ => .ok ()
    deleteOutcome := fun l =>
      match (deleteRemoteFiles "h" (fun _ => none)
          (fun _ p => if p = "/d.txt" then some ⟨"550 d.txt: Permission denied"⟩ else none)
          "/" l).result with
      | .ok n => .ok n
      | .error e => .error e
    uploadTs := "t1"
    nowTs := "t2" }

/-- C7's witness input (the spec's first scenario): uploading the new file
`d.txt` adds it to the tracked-new set. -/
def c7WitArgs : AutoUploadArgs := c1WitArgs

/-- C3's witness input: a one-file baseline whose mirror copy exists. -/
def c3WitArgs : RestoreArgs :=
  { solutionType := SolutionType.cafe24
    ftpHost := "h"
    ftpUser := "u"
    ftpPassword := "pw"
    baseline := some ⟨"t0", "/", ["a.txt"]⟩
    syncState := ⟨[]⟩
    fs := [["r", "a.txt"]]
    uploadOutcome := fun _ => .ok ()
    deleteOutcome := fun l => .ok l.length }

/-- C3's counterexample input: the baseline path `"a/./b"` resolves to the
mirror file `r/a/b` (so it "exists as a regular file in the raw mirror"),
but the restored working copy's file set is `{"a/b"}`, not `{"a/./b"}`. -/
def c3CtrArgs : RestoreArgs :=
  { solutionType := SolutionType.cafe24
    ftpHost := "h"
    ftpUser := "u"
    ftpPassword := "pw"
    baseline := some ⟨"t0", "/", ["a/./b"]⟩
    syncState := ⟨[]⟩
    fs := [["r", "a", "b"]]
    uploadOutcome := fun _ => .ok ()
    deleteOutcome := fun l => .ok l.length }

/-! # Theorems -/

/-! ## Helper lemmas: sorting -/

theorem sortStrings_sorted (l : List String) : (sortStrings l).Sorted (· ≤ ·) :=
  (List.sorted_insertionSort (fun a b : String => a.toList ≤ b.toList) l).imp
    (fun hab => String.le_iff_toList_le.mpr hab)

theorem mem_sortStrings {p : String} {l : List String} :
    p ∈ sortStrings l ↔ p ∈ l :=
  (List.perm_insertionSort _ l).mem_iff

theorem mem_sortedDedup {p : String} {l : List String} :
    p ∈ sortedDedup l ↔ p ∈ l := by
  rw [sortedDedup, mem_sortStrings, List.mem_dedup]

theorem sortedDedup_nodup (l : List String) : (sortedDedup l).Nodup :=
  ((List.perm_insertionSort _ l.dedup).nodup_iff).mpr l.nodup_dedup

theorem sortedDedup_sorted (l : List String) : (sortedDedup l).Sorted (· ≤ ·) :=
  sortStrings_sorted _

/-! ## Helper lemmas: the path model -/

theorem splitOnSlash_ne_nil (l : List Char) : splitOnSlash l ≠ [] := by
  induction l with
  | nil => simp [splitOnSlash]
  | cons c rest ih =>
    by_cases h : c = '/'
    · simp [splitOnSlash, h]
    · simp only [splitOnSlash, if_neg h]
      cases hrec : splitOnSlash rest with
      | nil => simp
      | cons h t => simp

theorem joinSlash_splitOnSlash (l : List Char) : joinSlash (splitOnSlash l) = l := by
  induction l with
  | nil => simp [splitOnSlash, joinSlash]
  | cons c rest ih =>
    by_cases h : c = '/'
    · subst h
      simp only [splitOnSlash, if_pos rfl]
      cases hrec : splitOnSlash rest with
      | nil => exact absurd hrec (splitOnSlash_ne_nil rest)
      | cons x xs =>
        rw [hrec] at ih
        simp [joinSlash, ih]
    · simp only [splitOnSlash, if_neg h]
      cases hrec : splitOnSlash rest with
      | nil => exact absurd hrec (splitOnSlash_ne_nil rest)
      | cons x xs =>
        rw [hrec] at ih
        cases xs with
        | nil => simp_all [joinSlash]
        | cons y ys => simp_all [joinSlash]

theorem splitOnSlash_pieces_no_slash (l : List Char) :
    ∀ p ∈ splitOnSlash l, '/' ∉ p := by
  induction l with
  | nil => simp [splitOnSlash]
  | cons c rest ih =>
    by_cases h : c = '/'
    · simp only [splitOnSlash, if_pos h, List.mem_cons]
      rintro p (rfl | hp)
      · simp
      · exact ih p hp
    · simp only [splitOnSlash, if_neg h]
      cases hrec : splitOnSlash rest with
      | nil => exact absurd hrec (splitOnSlash_ne_nil rest)
      | cons x xs =>
        rw [hrec] at ih
        simp only [List.mem_cons]
        rintro p (rfl | hp)
        · intro hmem
          rcases List.mem_cons.mp hmem with h1 | h2
          · exact h h1.symm
          · exact ih x (List.mem_cons_self x xs) h2
        · exact ih p (List.mem_cons_of_mem x hp)

theorem splitOnSlash_joinSlash (segs : List (List Char))
    (hne : segs ≠ []) (hslash : ∀ s ∈ segs, '/' ∉ s) :
    splitOnSlash (joinSlash segs) = segs := by
  induction segs with
  | nil => exact absurd rfl hne
  | cons x xs ih =>
    cases xs with
    | nil =>
      simp only [joinSlash]
      have hx : '/' ∉ x := hslash x (List.mem_cons_self x [])
      clear ih hne hslash
      induction x with
      | nil => simp [splitOnSlash]
      | cons c cs ihc =>
        have hc : ¬ c = '/' := fun hc => hx (hc ▸ List.mem_cons_self c cs)
        have hcs : '/' ∉ cs := fun hm => hx (List.mem_cons_of_mem c hm)
        simp only [splitOnSlash, if_neg hc, ihc hcs]
    | cons y ys =>
      have hx : '/' ∉ x := hslash x (List.mem_cons_self x _)
      have hxs : splitOnSlash (joinSlash (y :: ys)) = y :: ys :=
        ih (by simp) (fun s hs => hslash s (List.mem_cons_of_mem x hs))
      show splitOnSlash (x ++ '/' :: joinSlash (y :: ys)) = x :: y :: ys
      clear ih hne hslash
      induction x with
      | nil => simp [splitOnSlash, hxs]
      | cons c cs ihc =>
        have hc : ¬ c = '/' := fun hc => hx (hc ▸ List.mem_cons_self c cs)
        have hcs : '/' ∉ cs := fun hm => hx (List.mem_cons_of_mem c hm)
        have hrec : splitOnSlash (cs.append ('/' :: joinSlash (y :: ys)))
            = cs :: y :: ys := ihc hcs
        simp only [List.cons_append, splitOnSlash, if_neg hc]
        rw [hrec]

theorem joinSegs_splitSegs (s : String) : joinSegs (splitSegs s) = s := by
  show String.mk _ = s
  rw [splitSegs, List.map_map]
  have : (String.toList ∘ fun cs => (⟨cs⟩ : String)) = id := by
    funext cs; rfl
  rw [this, List.map_id, joinSlash_splitOnSlash]
  cases s
  rfl

theorem splitSegs_joinSegs (segs : List String)
    (hne : segs ≠ []) (hwf : ∀ s ∈ segs, '/' ∉ s.toList) :
    splitSegs (joinSegs segs) = segs := by
  show (splitOnSlash (String.toList ⟨joinSlash (segs.map String.toList)⟩)).map _ = segs
  have htl : String.toList (⟨joinSlash (segs.map String.toList)⟩ : String)
      = joinSlash (segs.map String.toList) := rfl
  rw [htl, splitOnSlash_joinSlash (segs.map String.toList)
      (by simpa using hne)
      (by intro s hs
          rcases List.mem_map.mp hs with ⟨t, ht, rfl⟩
          exact hwf t ht)]
  rw [List.map_map]
  have : ((fun cs => (⟨cs⟩ : String)) ∘ String.toList) = id := by
    funext t; cases t; rfl
  rw [this, List.map_id]

theorem resolveSegs_wf (base : AbsPath) (segs : List String)
    (hwf : ∀ s ∈ segs, WfSeg s) :
    segs.foldl
      (fun acc seg =>
        if seg = "" ∨ seg = "." then acc
        else if seg = ".." then acc.dropLast
        else acc ++ [seg])
      base = base ++ segs := by
  induction segs generalizing base with
  | nil => simp
  | cons s rest ih =>
    obtain ⟨h1, h2, h3, _⟩ := hwf s (List.mem_cons_self s rest)
    have hcond : ¬ (s = "" ∨ s = ".") := by
      rintro (h | h)
      · exact h1 h
      · exact h2 h
    simp only [List.foldl_cons]
    rw [if_neg hcond, if_neg h3,
      ih (base ++ [s]) (fun t ht => hwf t (List.mem_cons_of_mem s ht))]
    simp

theorem resolveSegs_joinSegs (base : AbsPath) (segs : List String)
    (hne : segs ≠ []) (hwf : ∀ s ∈ segs, WfSeg s) :
    resolveSegs base (joinSegs segs) = base ++ segs := by
  rw [resolveSegs, splitSegs_joinSegs segs hne (fun s hs => (hwf s hs).2.2.2)]
  exact resolveSegs_wf base segs hwf

theorem isPathInsideLocal_append (localRoot : AbsPath) (segs : List String)
    (hne : segs ≠ []) :
    isPathInsideLocal localRoot (localRoot ++ segs) = true := by
  simp only [isPathInsideLocal, Bool.and_eq_true, decide_eq_true_eq]
  refine ⟨List.isPrefixOf_iff_prefix.mpr (List.prefix_append _ _), ?_⟩
  simp [hne]

theorem normalizeRelativePath_idem (s : String) :
    normalizeRelativePath (normalizeRelativePath s) = normalizeRelativePath s := by
  unfold normalizeRelativePath
  have htl : String.toList
      (⟨(s.toList.map (fun c => if c = '\\' then '/' else c)).dropWhile (fun c => c == '/')⟩ :
        String)
      = (s.toList.map (fun c => if c = '\\' then '/' else c)).dropWhile (fun c => c == '/') :=
    rfl
  rw [htl]
  have hmap : ((s.toList.map (fun c => if c = '\\' then '/' else c)).dropWhile
      (fun c => c == '/')).map (fun c => if c = '\\' then '/' else c)
      = (s.toList.map (fun c => if c = '\\' then '/' else c)).dropWhile (fun c => c == '/') := by
    apply List.map_congr_left ?_ |>.trans (List.map_id _)
    intro c hc
    have hc1 : c ∈ s.toList.map (fun c => if c = '\\' then '/' else c) :=
      (List.dropWhile_sublist _).subset hc
    rcases List.mem_map.mp hc1 with ⟨d, _, rfl⟩
    by_cases hd : d = '\\' <;> simp [hd]
  rw [hmap, List.dropWhile_idempotent]

/-! ## Helper lemmas: small list facts -/

theorem mem_setAdd {l : List String} {p q : String} :
    q ∈ setAdd l p ↔ q ∈ l ∨ q = p := by
  unfold setAdd
  split
  · next h =>
    have hp : p ∈ l := by simpa using h
    constructor
    · exact Or.inl
    · rintro (hq | rfl)
      · exact hq
      · exact hp
  · next h => simp

theorem setAdd_nodup {l : List String} (h : l.Nodup) (p : String) :
    (setAdd l p).Nodup := by
  unfold setAdd
  split
  · next => exact h
  · next hc =>
    have hp : p ∉ l := by simpa using hc
    exact List.nodup_append.mpr ⟨h, List.nodup_singleton p, by simpa using hp⟩

theorem mem_foldl_erase {d l : List String} (hl : l.Nodup) {q : String} :
    q ∈ d.foldl (fun acc item => acc.erase item) l ↔ q ∈ l ∧ q ∉ d := by
  induction d generalizing l with
  | nil => simp
  | cons x xs ih =>
    simp only [List.foldl_cons]
    rw [ih (hl.erase x), hl.mem_erase_iff]
    constructor
    · rintro ⟨⟨hne, hq⟩, hxs⟩
      exact ⟨hq, by simp [hne, hxs]⟩
    · rintro ⟨hq, hnd⟩
      simp only [List.mem_cons, not_or] at hnd
      exact ⟨⟨hnd.1, hq⟩, hnd.2⟩

theorem foldl_erase_nodup {d l : List String} (hl : l.Nodup) :
    (d.foldl (fun acc item => acc.erase item) l).Nodup := by
  induction d generalizing l with
  | nil => exact hl
  | cons x xs ih => exact ih (hl.erase x)

theorem mem_foldl_setAdd_filter (bs : List String) {u l : List String} {q : String} :
    q ∈ u.foldl
      (fun acc relativePath =>
        if bs.contains relativePath then acc else setAdd acc relativePath) l ↔
    q ∈ l ∨ (q ∈ u ∧ ¬ bs.contains q) := by
  induction u generalizing l with
  | nil => simp
  | cons x xs ih =>
    simp only [List.foldl_cons]
    by_cases hb : bs.contains x
    · rw [if_pos hb, ih]
      constructor
      · rintro (hq | hq)
        · exact Or.inl hq
        · exact Or.inr ⟨List.mem_cons_of_mem x hq.1, hq.2⟩
      · rintro (hq | ⟨hq, hnb⟩)
        · exact Or.inl hq
        · rcases List.mem_cons.mp hq with rfl | hq2
          · exact absurd hb hnb
          · exact Or.inr ⟨hq2, hnb⟩
    · rw [if_neg hb, ih]
      constructor
      · rintro (hq | hq)
        · rcases mem_setAdd.mp hq with hq1 | rfl
          · exact Or.inl hq1
          · exact Or.inr ⟨List.mem_cons_self _ _, hb⟩
        · exact Or.inr ⟨List.mem_cons_of_mem x hq.1, hq.2⟩
      · rintro (hq | ⟨hq, hnb⟩)
        · exact Or.inl (mem_setAdd.mpr (Or.inl hq))
        · rcases List.mem_cons.mp hq with rfl | hq2
          · exact Or.inl (mem_setAdd.mpr (Or.inr rfl))
          · exact Or.inr ⟨hq2, hnb⟩

theorem foldl_setAdd_filter_nodup (bs : List String) {u l : List String} (hl : l.Nodup) :
    (u.foldl
      (fun acc relativePath =>
        if bs.contains relativePath then acc else setAdd acc relativePath) l).Nodup := by
  induction u generalizing l with
  | nil => exact hl
  | cons x xs ih =>
    simp only [List.foldl_cons]
    by_cases hb : bs.contains x
    · rw [if_pos hb]; exact ih hl
    · rw [if_neg hb]; exact ih (setAdd_nodup hl x)

theorem norm_filter_mem {L : List String} {p : String}
    (hp : p ∈ (L.map normalizeRelativePath).filter (fun s => s != "")) :
    normalizeRelativePath p = p ∧ p ≠ "" := by
  rw [List.mem_filter] at hp
  rcases hp with ⟨hp1, hp2⟩
  rcases List.mem_map.mp hp1 with ⟨q, _, rfl⟩
  exact ⟨normalizeRelativePath_idem q, by simpa using hp2⟩

/-! ## Claim C8 — the diff engine -/

/-- Claim C8: for any two snapshot maps, `diffLocalFileSnapshotMap` returns
`upserted` = every path of the after map that is absent from the before map
or whose mtime or size differs, and `deleted` = every path present in the
before map but absent from the after map; both lists are sorted
lexicographically.  (The function is a pure Lean `def` of the two maps, so
the purity conjunct of the claim is definitional.) -/
theorem c8_diff_engine (before after : List (String × LocalFileSnapshot)) :
    (∀ p, p ∈ (diffLocalFileSnapshotMap before after).upserted ↔
      (p ∈ after.map Prod.fst ∧
        (jsLookup before p = none ∨
          ∃ prev cur, jsLookup before p = some prev ∧ jsLookup after p = some cur ∧
            (prev.mtimeMs ≠ cur.mtimeMs ∨ prev.size ≠ cur.size)))) ∧
    (∀ p, p ∈ (diffLocalFileSnapshotMap before after).deleted ↔
      (p ∈ before.map Prod.fst ∧ jsLookup after p = none)) ∧
    (diffLocalFileSnapshotMap before after).upserted.Sorted (· ≤ ·) ∧
    (diffLocalFileSnapshotMap before after).deleted.Sorted (· ≤ ·) := by
  refine ⟨?_, ?_, sortStrings_sorted _, sortStrings_sorted _⟩
  · intro p
    show p ∈ sortStrings _ ↔ _
    rw [mem_sortStrings, List.mem_filter]
    constructor
    · rintro ⟨hmem, hpred⟩
      refine ⟨hmem, ?_⟩
      rcases hb : jsLookup before p with _ | prev
      · exact Or.inl rfl
      · rcases ha : jsLookup after p with _ | cur
        · rw [hb, ha] at hpred; simp at hpred
        · rw [hb, ha] at hpred
          refine Or.inr ⟨prev, cur, rfl, rfl, ?_⟩
          simpa [bne_iff_ne] using hpred
    · rintro ⟨hmem, hcond⟩
      refine ⟨hmem, ?_⟩
      rcases hcond with hb | ⟨prev, cur, hb, ha, hdiff⟩
      · rw [hb]
      · rw [hb, ha]
        simpa [bne_iff_ne] using hdiff
  · intro p
    show p ∈ sortStrings _ ↔ _
    rw [mem_sortStrings, List.mem_filter]
    constructor
    · rintro ⟨hmem, hpred⟩
      exact ⟨hmem, Option.isNone_iff_eq_none.mp hpred⟩
    · rintro ⟨hmem, hnone⟩
      exact ⟨hmem, by simp [hnone]⟩

/-! ## Claim C6 — the retry bound -/

theorem ftpRetryLoop_all_transient {α : Type} (body : Nat → Except FtpError α)
    (e : Nat → FtpError) (hb : ∀ i, body i = .error (e i))
    (ht : ∀ i, isRetryableFtpError (e i) = true) :
    ftpRetryLoop body = ⟨3, [1500, 3000], .error (e 3)⟩ := by
  show ftpRetryFrom body 1 3 = _
  have h3 : ftpRetryFrom body 3 1 = ⟨1, [], .error (e 3)⟩ := by
    unfold ftpRetryFrom
    rw [hb 3]
    simp
  have h2 : ftpRetryFrom body 2 2 = ⟨2, [3000], .error (e 3)⟩ := by
    unfold ftpRetryFrom
    rw [hb 2]
    simp only [ht 2, Bool.not_true, Bool.false_or]
    norm_num [h3, FTP_RETRY_SLEEP_MS]
  unfold ftpRetryFrom
  rw [hb 1]
  simp only [ht 1, Bool.not_true, Bool.false_or]
  norm_num [h2, FTP_RETRY_SLEEP_MS]

theorem ftpRetryLoop_nonretryable {α : Type} (body : Nat → Except FtpError α)
    (e : FtpError) (hb : body 1 = .error e) (ht : isRetryableFtpError e = false) :
    ftpRetryLoop body = ⟨1, [], .error e⟩ := by
  show ftpRetryFrom body 1 3 = _
  unfold ftpRetryFrom
  rw [hb]
  simp [ht]

/-- Claim C6: a Transport operation (`downloadInitialSkin`,
`uploadDeltaFiles`, `deleteRemoteFiles`) whose attempts always fail with a
transient error makes exactly 3 connection attempts, sleeping
`attempt × 1.5 s` (1500 ms then 3000 ms) between attempts, and then raises
the last error; an attempt failing with a non-transient error raises it
immediately after 1 attempt with no sleep. -/
theorem c6_retry_bound {α β : Type} (host : String) (hhost : ¬ strTrim host = "")
    (dlBody : Nat → Except FtpError α) (upBody : Nat → Except FtpError β)
    (accessOutcome : Nat → Option FtpError)
    (removeOutcome : Nat → String → Option FtpError)
    (remotePath : String) (relativePaths : List String) (e : Nat → FtpError) :
    ((∀ i, dlBody i = .error (e i)) → (∀ i, isRetryableFtpError (e i) = true) →
      downloadInitialSkin host dlBody = ⟨3, [1500, 3000], .error (e 3)⟩) ∧
    ((∀ i, upBody i = .error (e i)) → (∀ i, isRetryableFtpError (e i) = true) →
      uploadDeltaFiles host upBody = ⟨3, [1500, 3000], .error (e 3)⟩) ∧
    ((∀ i, (match accessOutcome i with
        | some err => Except.error err
        | none => deleteRemoteFilesBody (removeOutcome i) (normalizeRemotePath remotePath)
            relativePaths) = Except.error (e i)) →
      (∀ i, isRetryableFtpError (e i) = true) →
      deleteRemoteFiles host accessOutcome removeOutcome remotePath relativePaths
        = ⟨3, [1500, 3000], .error (e 3)⟩) ∧
    (dlBody 1 = .error (e 1) → isRetryableFtpError (e 1) = false →
      downloadInitialSkin host dlBody = ⟨1, [], .error (e 1)⟩) ∧
    (upBody 1 = .error (e 1) → isRetryableFtpError (e 1) = false →
      uploadDeltaFiles host upBody = ⟨1, [], .error (e 1)⟩) := by
  have hne : (strTrim host == "") = false := beq_eq_false_iff_ne.mpr hhost
  refine ⟨?_, ?_, ?_, ?_, ?_⟩
  · intro hb ht
    unfold downloadInitialSkin
    rw [if_neg (by simp [hne])]
    exact ftpRetryLoop_all_transient dlBody e hb ht
  · intro hb ht
    unfold uploadDeltaFiles
    rw [if_neg (by simp [hne])]
    exact ftpRetryLoop_all_transient upBody e hb ht
  · intro hb ht
    unfold deleteRemoteFiles
    rw [if_neg (by simp [hne])]
    exact ftpRetryLoop_all_transient _ e hb ht
  · intro hb ht
    unfold downloadInitialSkin
    rw [if_neg (by simp [hne])]
    exact ftpRetryLoop_nonretryable dlBody (e 1) hb ht
  · intro hb ht
    unfold uploadDeltaFiles
    rw [if_neg (by simp [hne])]
    exact ftpRetryLoop_nonretryable upBody (e 1) hb ht

/-- Witness for C6 at a concrete input: a host `"h"`, attempts that always
time out (transient), plus the immediate-raise case on a `530` login
failure. -/
theorem c6_retry_bound_witness :
    downloadInitialSkin "h" (fun _ => (Except.error ⟨"ETIMEDOUT"⟩ : Except FtpError Nat))
      = ⟨3, [1500, 3000], .error ⟨"ETIMEDOUT"⟩⟩ ∧
    uploadDeltaFiles "h" (fun _ => (Except.error ⟨"530 Login incorrect"⟩ : Except FtpError Nat))
      = ⟨1, [], .error ⟨"530 Login incorrect"⟩⟩ := by
  constructor
  · exact (c6_retry_bound (α := Nat) (β := Nat) "h" (by decide)
      (fun _ => Except.error ⟨"ETIMEDOUT"⟩) (fun _ => Except.error ⟨"ETIMEDOUT"⟩)
      (fun _ => none) (fun _ _ => none) "/" [] (fun _ => ⟨"ETIMEDOUT"⟩)).1
      (fun _ => rfl) (fun _ => by decide)
  · exact (c6_retry_bound (α := Nat) (β := Nat) "h" (by decide)
      (fun _ => Except.error ⟨"530 Login incorrect"⟩)
      (fun _ => Except.error ⟨"530 Login incorrect"⟩)
      (fun _ => none) (fun _ _ => none) "/" [] (fun _ => ⟨"530 Login incorrect"⟩)).2.2.2.2
      rfl (by decide)

/-! ## Claim C5 — permission-denied classification and skipping -/

/-- Claim C5 (the code-bug evidence): the permission-denied classifier's
regex `/(^|\\s)550\\b|Permission denied/i` over-escapes `\s` and `\b`, so a
plain 550-class reply without the words "Permission denied" is *not*
classified as permission denied and aborts the whole per-item delete loop,
while a reply containing "Permission denied" is skipped and the loop
continues with the remaining items. -/
theorem c5_permission_denied_evidence :
    isPermissionDeniedFtpError ⟨"550 Access denied"⟩ = false ∧
    deleteRemoteFilesBody
      (fun p => if p = "/a.txt" then some ⟨"550 Access denied"⟩ else none) "/"
      ["a.txt", "b.txt"] = .error ⟨"550 Access denied"⟩ ∧
    isPermissionDeniedFtpError ⟨"550 a.txt: Permission denied"⟩ = true ∧
    deleteRemoteFilesBody
      (fun p => if p = "/a.txt" then some ⟨"550 a.txt: Permission denied"⟩ else none) "/"
      ["a.txt", "b.txt"] = .ok 1 := by
  refine ⟨by decide, by decide, by decide, by decide⟩

/-! ## Helper lemmas: the deleted-path classification loop -/

theorem isFile_iff_mem {fs : Fs} {p : AbsPath} : isFile fs p = true ↔ p ∈ fs := by
  simp [isFile]

theorem classifyStep_deletable (localRoot rawRoot : AbsPath) (bs ts : List String)
    (st : DelClass) (x : String) :
    (classifyDeletedStep localRoot rawRoot bs ts st x).deletableOnServer
      = st.deletableOnServer ++ (if !bs.contains x && ts.contains x then [x] else []) := by
  unfold classifyDeletedStep
  by_cases hb : bs.contains x = true
  · have hbp : x ∈ bs := by simpa using hb
    rw [if_pos hb]
    split
    · simp [hbp]
    · split
      · simp [hbp]
      · simp [hbp]
  · have hbp : x ∉ bs := by simpa using hb
    rw [if_neg hb]
    by_cases ht : ts.contains x = true
    · have htp : x ∈ ts := by simpa using ht
      rw [if_pos ht]
      simp [hbp, htp]
    · have htp : x ∉ ts := by simpa using ht
      rw [if_neg ht]
      simp [hbp, htp]

theorem classifyStep_skipped (localRoot rawRoot : AbsPath) (bs ts : List String)
    (st : DelClass) (x : String) :
    (classifyDeletedStep localRoot rawRoot bs ts st x).manualDeleteSkipped
      = st.manualDeleteSkipped ++ (if !bs.contains x && !ts.contains x then [x] else []) := by
  unfold classifyDeletedStep
  by_cases hb : bs.contains x = true
  · have hbp : x ∈ bs := by simpa using hb
    rw [if_pos hb]
    split
    · simp [hbp]
    · split
      · simp [hbp]
      · simp [hbp]
  · have hbp : x ∉ bs := by simpa using hb
    rw [if_neg hb]
    by_cases ht : ts.contains x = true
    · have htp : x ∈ ts := by simpa using ht
      rw [if_pos ht]
      simp [hbp, htp]
    · have htp : x ∉ ts := by simpa using ht
      rw [if_neg ht]
      simp [hbp, htp]

theorem classifyStep_mono (localRoot rawRoot : AbsPath) (bs ts : List String)
    (st : DelClass) (x : String) :
    (∀ y ∈ st.upsertSet, y ∈ (classifyDeletedStep localRoot rawRoot bs ts st x).upsertSet) ∧
    (∀ y ∈ st.protectedRestored,
      y ∈ (classifyDeletedStep localRoot rawRoot bs ts st x).protectedRestored) ∧
    (∀ p ∈ st.fs, p ∈ (classifyDeletedStep localRoot rawRoot bs ts st x).fs) := by
  unfold classifyDeletedStep
  split
  · split
    · exact ⟨fun y hy => hy, fun y hy => hy, fun p hp => hp⟩
    · split
      · exact ⟨fun y hy => hy, fun y hy => hy, fun p hp => hp⟩
      · exact ⟨fun y hy => mem_setAdd.mpr (Or.inl hy),
          fun y hy => by simpa using Or.inl hy,
          fun p hp => List.mem_cons_of_mem _ hp⟩
  · split
    · exact ⟨fun y hy => hy, fun y hy => hy, fun p hp => hp⟩
    · exact ⟨fun y hy => hy, fun y hy => hy, fun p hp => hp⟩

theorem classify_fold_mono (localRoot rawRoot : AbsPath) (bs ts : List String)
    (l : List String) (st : DelClass) :
    (∀ y ∈ st.upsertSet,
      y ∈ (l.foldl (classifyDeletedStep localRoot rawRoot bs ts) st).upsertSet) ∧
    (∀ y ∈ st.protectedRestored,
      y ∈ (l.foldl (classifyDeletedStep localRoot rawRoot bs ts) st).protectedRestored) ∧
    (∀ p ∈ st.fs, p ∈ (l.foldl (classifyDeletedStep localRoot rawRoot bs ts) st).fs) := by
  induction l generalizing st with
  | nil => exact ⟨fun y hy => hy, fun y hy => hy, fun p hp => hp⟩
  | cons x xs ih =>
    have hstep := classifyStep_mono localRoot rawRoot bs ts st x
    have hrest := ih (classifyDeletedStep localRoot rawRoot bs ts st x)
    exact ⟨fun y hy => hrest.1 y (hstep.1 y hy),
      fun y hy => hrest.2.1 y (hstep.2.1 y hy),
      fun p hp => hrest.2.2 p (hstep.2.2 p hp)⟩

theorem classify_fold_deletable (localRoot rawRoot : AbsPath) (bs ts : List String)
    (l : List String) (st : DelClass) :
    (l.foldl (classifyDeletedStep localRoot rawRoot bs ts) st).deletableOnServer
      = st.deletableOnServer ++ l.filter (fun q => !bs.contains q && ts.contains q) := by
  induction l generalizing st with
  | nil => simp
  | cons x xs ih =>
    rw [List.foldl_cons, ih, classifyStep_deletable, List.filter_cons]
    by_cases hc : x ∉ bs ∧ x ∈ ts
    · simp [hc.1, hc.2]
    · simp only [not_and_or, not_not] at hc
      rcases hc with hc | hc
      · simp [hc]
      · simp [hc]

theorem classify_fold_skipped (localRoot rawRoot : AbsPath) (bs ts : List String)
    (l : List String) (st : DelClass) :
    (l.foldl (classifyDeletedStep localRoot rawRoot bs ts) st).manualDeleteSkipped
      = st.manualDeleteSkipped ++ l.filter (fun q => !bs.contains q && !ts.contains q) := by
  induction l generalizing st with
  | nil => simp
  | cons x xs ih =>
    rw [List.foldl_cons, ih, classifyStep_skipped, List.filter_cons]
    by_cases hc : x ∉ bs ∧ x ∉ ts
    · simp [hc.1, hc.2]
    · simp only [not_and_or, not_not] at hc
      rcases hc with hc | hc
      · simp [hc]
      · simp [hc]

theorem classify_fold_upsert_from (localRoot rawRoot : AbsPath) (bs ts : List String)
    (l : List String) (st : DelClass) :
    ∀ x ∈ (l.foldl (classifyDeletedStep localRoot rawRoot bs ts) st).upsertSet,
      x ∈ st.upsertSet ∨ x ∈ l := by
  induction l generalizing st with
  | nil => exact fun x hx => Or.inl hx
  | cons y ys ih =>
    intro x hx
    rcases ih (classifyDeletedStep localRoot rawRoot bs ts st y) x hx with hx1 | hx2
    · have : x ∈ setAdd st.upsertSet y ∨ x ∈ st.upsertSet := by
        revert hx1
        unfold classifyDeletedStep
        split
        · split
          · exact fun h => Or.inr h
          · split
            · exact fun h => Or.inr h
            · exact fun h => Or.inl h
        · split
          · exact fun h => Or.inr h
          · exact fun h => Or.inr h
      rcases this with h1 | h2
      · rcases mem_setAdd.mp h1 with h3 | rfl
        · exact Or.inl h3
        · exact Or.inr (List.mem_cons_self _ _)
      · exact Or.inl h2
    · exact Or.inr (List.mem_cons_of_mem y hx2)

theorem classify_fold_restores (localRoot rawRoot : AbsPath) (bs ts : List String)
    (l : List String) (st : DelClass) (p : String)
    (hp : p ∈ l) (hb : bs.contains p = true)
    (hraw : isFile st.fs (resolveSegs rawRoot p) = true)
    (hin : isPathInsideLocal localRoot (resolveSegs localRoot p) = true) :
    p ∈ (l.foldl (classifyDeletedStep localRoot rawRoot bs ts) st).protectedRestored ∧
    p ∈ (l.foldl (classifyDeletedStep localRoot rawRoot bs ts) st).upsertSet ∧
    resolveSegs localRoot p ∈ (l.foldl (classifyDeletedStep localRoot rawRoot bs ts) st).fs := by
  induction l generalizing st with
  | nil => cases hp
  | cons x xs ih =>
    rcases List.mem_cons.mp hp with rfl | hp2
    · have hstep : classifyDeletedStep localRoot rawRoot bs ts st p =
          { st with
            fs := addFile st.fs (resolveSegs localRoot p)
            upsertSet := setAdd st.upsertSet p
            protectedRestored := st.protectedRestored ++ [p] } := by
        unfold classifyDeletedStep
        rw [if_pos hb, if_neg (by simp [hraw]), if_neg (by simp [hin])]
      have hmono := classify_fold_mono localRoot rawRoot bs ts xs
        (classifyDeletedStep localRoot rawRoot bs ts st p)
      rw [List.foldl_cons]
      refine ⟨hmono.2.1 p ?_, hmono.1 p ?_, hmono.2.2 _ ?_⟩
      · rw [hstep]; simp
      · rw [hstep]; exact mem_setAdd.mpr (Or.inr rfl)
      · rw [hstep]; exact List.mem_cons_self _ _
    · rw [List.foldl_cons]
      refine ih (classifyDeletedStep localRoot rawRoot bs ts st x) hp2 ?_
      have hmem : resolveSegs rawRoot p ∈ st.fs := isFile_iff_mem.mp hraw
      exact isFile_iff_mem.mpr
        ((classifyStep_mono localRoot rawRoot bs ts st x).2.2 _ hmem)

/-! ## Helper lemmas: branch analysis of `autoUploadChangedFiles` -/

theorem autoUpload_cases (localRoot rawRoot : AbsPath) (a : AutoUploadArgs) :
    autoUploadChangedFiles localRoot rawRoot a = autoUploadNonFtpOutcome localRoot rawRoot a ∨
    autoUploadChangedFiles localRoot rawRoot a = autoUploadNoCredsOutcome localRoot rawRoot a ∨
    (∃ e, autoUploadUploadPhase localRoot rawRoot a = .error e ∧
      autoUploadChangedFiles localRoot rawRoot a
        = autoUploadFailureOutcome (autoUploadCls localRoot rawRoot a) [] e) ∨
    (∃ uc ua e, autoUploadUploadPhase localRoot rawRoot a = .ok (uc, ua) ∧
      autoUploadDeletePhase localRoot rawRoot a = .error e ∧
      autoUploadChangedFiles localRoot rawRoot a = autoUploadFailureOutcome
        (autoUploadCls localRoot rawRoot a)
        (autoUploadCls localRoot rawRoot a).deletableOnServer e) ∨
    (∃ uc ua dc, autoUploadUploadPhase localRoot rawRoot a = .ok (uc, ua) ∧
      autoUploadDeletePhase localRoot rawRoot a = .ok dc ∧
      autoUploadChangedFiles localRoot rawRoot a
        = autoUploadSuccessOutcome localRoot rawRoot a uc ua dc) := by
  unfold autoUploadChangedFiles
  split
  · exact Or.inl rfl
  · split
    · exact Or.inr (Or.inl rfl)
    · cases hup : autoUploadUploadPhase localRoot rawRoot a with
      | error e =>
        exact Or.inr (Or.inr (Or.inl ⟨e, rfl, rfl⟩))
      | ok pr =>
        rcases pr with ⟨uc, ua⟩
        cases hdel : autoUploadDeletePhase localRoot rawRoot a with
        | error e =>
          exact Or.inr (Or.inr (Or.inr (Or.inl ⟨uc, ua, e, rfl, rfl, rfl⟩)))
        | ok dc =>
          exact Or.inr (Or.inr (Or.inr (Or.inr ⟨uc, ua, dc, rfl, rfl, rfl⟩)))

theorem autoUpload_outcome_fields (localRoot rawRoot : AbsPath) (a : AutoUploadArgs) :
    (autoUploadChangedFiles localRoot rawRoot a).result.manualDeleteSkippedFiles
      = (autoUploadCls localRoot rawRoot a).manualDeleteSkipped ∧
    (autoUploadChangedFiles localRoot rawRoot a).result.restoredProtectedFiles
      = (autoUploadCls localRoot rawRoot a).protectedRestored ∧
    (autoUploadChangedFiles localRoot rawRoot a).fs = (autoUploadCls localRoot rawRoot a).fs ∧
    (autoUploadChangedFiles localRoot rawRoot a).upsertSetFinal
      = (autoUploadCls localRoot rawRoot a).upsertSet ∧
    (autoUploadChangedFiles localRoot rawRoot a).deletableOnServer
      = (autoUploadCls localRoot rawRoot a).deletableOnServer ∧
    (∀ q, q ∈ (autoUploadChangedFiles localRoot rawRoot a).remoteDeleteRequests →
      q ∈ (autoUploadCls localRoot rawRoot a).deletableOnServer) := by
  rcases autoUpload_cases localRoot rawRoot a with h | h | ⟨e, _, h⟩ | ⟨uc, ua, e, _, _, h⟩ |
    ⟨uc, ua, dc, _, _, h⟩ <;> rw [h]
  · exact ⟨rfl, rfl, rfl, rfl, rfl, fun q hq => absurd hq (List.not_mem_nil q)⟩
  · exact ⟨rfl, rfl, rfl, rfl, rfl, fun q hq => absurd hq (List.not_mem_nil q)⟩
  · exact ⟨rfl, rfl, rfl, rfl, rfl, fun q hq => absurd hq (List.not_mem_nil q)⟩
  · exact ⟨rfl, rfl, rfl, rfl, rfl, fun q hq => hq⟩
  · exact ⟨rfl, rfl, rfl, rfl, rfl, fun q hq => hq⟩

/-! ## Claim C4 — transport errors in `autoUploadChangedFiles` -/

/-- Claim C4's counterexample: with complete credentials and an upload
transport that exhausts all 3 retries on a transient `ETIMEDOUT` (shown by
the retry trace), `autoUploadChangedFiles` catches the raised error and
returns a *structured summary result* (`attempted = true`, failure
message, preserved skip lists, no state written) instead of raising. -/
theorem c4_transport_error_counterexample :
    (uploadDeltaFiles "h" (fun _ => (Except.error ⟨"ETIMEDOUT"⟩ : Except FtpError Unit))).attempts
      = 3 ∧
    (uploadDeltaFiles "h"
      (fun _ => (Except.error ⟨"ETIMEDOUT"⟩ : Except FtpError Unit))).result.isOk = false ∧
    (autoUploadChangedFiles ["p", "local"] ["p", "raw"] c4CtrArgs).caughtError
      = some ⟨"ETIMEDOUT"⟩ ∧
    (autoUploadChangedFiles ["p", "local"] ["p", "raw"] c4CtrArgs).result.attempted = true ∧
    (autoUploadChangedFiles ["p", "local"] ["p", "raw"] c4CtrArgs).result.message
      = "자동 업로드 실패: ETIMEDOUT" ∧
    (autoUploadChangedFiles ["p", "local"] ["p", "raw"] c4CtrArgs).syncStateWritten = none := by
  refine ⟨by decide, by decide, by decide, by decide, by decide, by decide⟩

/-- Claim C4 (amended): when the upload/delete phase of
`autoUploadChangedFiles` raises a transport error (including one that
exhausted all retries), the error is caught: the operation does not abort
but returns the structured failure summary (`attempted = true`,
`uploaded = false`, zero counts, the protective-restore and skip lists
preserved, message `"자동 업로드 실패: " ++ message`), and no sync-rule
state is persisted. -/
theorem c4_transport_error_returns_summary (localRoot rawRoot : AbsPath)
    (a : AutoUploadArgs) (e : FtpError)
    (h : (autoUploadChangedFiles localRoot rawRoot a).caughtError = some e) :
    (autoUploadChangedFiles localRoot rawRoot a).result =
      ⟨true, false, 0, 0, [], [],
        (autoUploadCls localRoot rawRoot a).protectedRestored,
        (autoUploadCls localRoot rawRoot a).manualDeleteSkipped,
        "자동 업로드 실패: " ++ e.message, none⟩ ∧
    (autoUploadChangedFiles localRoot rawRoot a).syncStateWritten = none := by
  rcases autoUpload_cases localRoot rawRoot a with hc | hc | ⟨e2, _, hc⟩ |
    ⟨uc, ua, e2, _, _, hc⟩ | ⟨uc, ua, dc, _, _, hc⟩ <;> rw [hc] at h ⊢
  · exact absurd h (by simp [autoUploadNonFtpOutcome])
  · exact absurd h (by simp [autoUploadNoCredsOutcome])
  · have he : e2 = e := by
      simpa [autoUploadFailureOutcome] using h
    subst he
    exact ⟨rfl, rfl⟩
  · have he : e2 = e := by
      simpa [autoUploadFailureOutcome] using h
    subst he
    exact ⟨rfl, rfl⟩
  · exact absurd h (by simp [autoUploadSuccessOutcome])

/-- Witness for C4 at the concrete timed-out-upload input. -/
theorem c4_transport_error_witness :
    (autoUploadChangedFiles ["p", "local"] ["p", "raw"] c4CtrArgs).result =
      ⟨true, false, 0, 0, [], [],
        (autoUploadCls ["p", "local"] ["p", "raw"] c4CtrArgs).protectedRestored,
        (autoUploadCls ["p", "local"] ["p", "raw"] c4CtrArgs).manualDeleteSkipped,
        "자동 업로드 실패: " ++ FtpError.message ⟨"ETIMEDOUT"⟩, none⟩ ∧
    (autoUploadChangedFiles ["p", "local"] ["p", "raw"] c4CtrArgs).syncStateWritten = none :=
  c4_transport_error_returns_summary ["p", "local"] ["p", "raw"] c4CtrArgs
    ⟨"ETIMEDOUT"⟩ (by decide)

theorem mem_autoUploadNormalizedDeleted {a : AutoUploadArgs} {p : String}
    (hp : p ∈ a.deletedPaths) (hne : normalizeRelativePath p ≠ "") :
    normalizeRelativePath p ∈ autoUploadNormalizedDeleted a := by
  unfold autoUploadNormalizedDeleted
  rw [mem_sortedDedup, List.mem_filter]
  exact ⟨List.mem_map_of_mem _ hp, by simpa using hne⟩

theorem autoUploadCls_eq_foldl (localRoot rawRoot : AbsPath) (a : AutoUploadArgs) :
    autoUploadCls localRoot rawRoot a
      = (autoUploadNormalizedDeleted a).foldl
        (classifyDeletedStep localRoot rawRoot (baselineSetOf a) (trackedSetOf a))
        ⟨autoUploadNormalizedUpserts a, [], [], [], [], a.fs⟩ := rfl

theorem autoUploadCls_deletable (localRoot rawRoot : AbsPath) (a : AutoUploadArgs) :
    (autoUploadCls localRoot rawRoot a).deletableOnServer
      = (autoUploadNormalizedDeleted a).filter
        (fun q => !(baselineSetOf a).contains q && (trackedSetOf a).contains q) := by
  rw [autoUploadCls_eq_foldl, classify_fold_deletable]
  rfl

theorem autoUploadCls_skipped (localRoot rawRoot : AbsPath) (a : AutoUploadArgs) :
    (autoUploadCls localRoot rawRoot a).manualDeleteSkipped
      = (autoUploadNormalizedDeleted a).filter
        (fun q => !(baselineSetOf a).contains q && !(trackedSetOf a).contains q) := by
  rw [autoUploadCls_eq_foldl, classify_fold_skipped]
  rfl

theorem runRestore_ok_spec (localRoot rawRoot : AbsPath) (a : RestoreArgs)
    (out : RestoreOutcome) (h : runRestoreInitial localRoot rawRoot a = .ok out) :
    ∃ b, a.baseline = some b ∧ b.files.isEmpty = false ∧
      out.fs = replaceLocalWithRawBaseline localRoot rawRoot a.fs b.files ∧
      out.uploadedRelPaths = restoreUploadFiles localRoot rawRoot a b ∧
      out.remoteDeleteRequests = restoreDeletable a b ∧
      out.syncStateWritten = writeSyncRuleState ⟨[]⟩ := by
  unfold runRestoreInitial at h
  split at h
  · exact absurd h (by simp)
  · split at h
    · exact absurd h (by simp)
    · split at h
      · exact absurd h (by simp)
      · next b heq =>
        split at h
        · exact absurd h (by simp)
        · next hbne =>
          split at h
          · exact absurd h (by simp)
          · split at h
            · exact absurd h (by simp)
            · cases h
              exact ⟨b, heq, by simpa using hbne, rfl, rfl, rfl, rfl⟩

/-! ## Claim C2 — tracked-new-only remote deletion -/

/-- Claim C2's counterexample: the deleted argument `"/"` normalizes to the
empty string, which the argument normalization drops outright — it is
neither a baseline path nor tracked-new, yet it is *not* reported in
`manualDeleteSkippedFiles` (the list is empty).  The no-propagation half
still holds (no remote delete request is made). -/
theorem c2_tracked_new_counterexample :
    "/" ∈ c2CtrArgs.deletedPaths ∧
    normalizeRelativePath "/" = "" ∧
    "" ∉ baselineSetOf c2CtrArgs ∧
    "" ∉ trackedSetOf c2CtrArgs ∧
    (autoUploadChangedFiles ["p", "local"] ["p", "raw"]
      c2CtrArgs).result.manualDeleteSkippedFiles = [] ∧
    (autoUploadChangedFiles ["p", "local"] ["p", "raw"] c2CtrArgs).remoteDeleteRequests
      = [] := by
  refine ⟨by decide, by decide, by decide, by decide, by decide, by decide⟩

/-- Claim C2 (amended): a path is put in a remote-delete request by
`autoUploadChangedFiles` only if it is tracked-new and not a baseline path,
and by `runRestoreInitial` only if it is tracked-new (at call time) and not
a baseline path; a deleted argument that is neither baseline nor
tracked-new is never propagated to the remote server, and — provided its
normalized form is nonempty (arguments normalizing to the empty string are
dropped outright) — it is reported in `manualDeleteSkippedFiles`. -/
theorem c2_tracked_new_only_deletion (localRoot rawRoot : AbsPath)
    (aArgs : AutoUploadArgs) (rArgs : RestoreArgs) :
    (∀ q ∈ (autoUploadChangedFiles localRoot rawRoot aArgs).remoteDeleteRequests,
      q ∈ trackedSetOf aArgs ∧ q ∉ baselineSetOf aArgs) ∧
    (∀ p ∈ aArgs.deletedPaths, normalizeRelativePath p ≠ "" →
      normalizeRelativePath p ∉ baselineSetOf aArgs →
      normalizeRelativePath p ∉ trackedSetOf aArgs →
      normalizeRelativePath p
          ∈ (autoUploadChangedFiles localRoot rawRoot aArgs).result.manualDeleteSkippedFiles ∧
        normalizeRelativePath p
          ∉ (autoUploadChangedFiles localRoot rawRoot aArgs).remoteDeleteRequests) ∧
    (∀ out, runRestoreInitial localRoot rawRoot rArgs = .ok out →
      ∀ q ∈ out.remoteDeleteRequests,
        q ∈ rArgs.syncState.trackedNewServerFiles ∧
          ∀ b, rArgs.baseline = some b → q ∉ b.files) := by
  obtain ⟨hskip, _, _, _, _, hreq⟩ := autoUpload_outcome_fields localRoot rawRoot aArgs
  have hreqq : ∀ q ∈ (autoUploadChangedFiles localRoot rawRoot aArgs).remoteDeleteRequests,
      q ∈ trackedSetOf aArgs ∧ q ∉ baselineSetOf aArgs := by
    intro q hq
    have hq2 := hreq q hq
    rw [autoUploadCls_deletable, List.mem_filter] at hq2
    have := hq2.2
    simp only [Bool.and_eq_true, Bool.not_eq_true'] at this
    constructor
    · simpa using this.2
    · simpa using this.1
  refine ⟨hreqq, ?_, ?_⟩
  · intro p hp hne hnb hnt
    constructor
    · rw [hskip, autoUploadCls_skipped, List.mem_filter]
      refine ⟨mem_autoUploadNormalizedDeleted hp hne, ?_⟩
      simp [hnb, hnt]
    · intro hmem
      exact hnt (hreqq _ hmem).1
  · intro out hout q hq
    obtain ⟨b, hb, _, _, _, hreqs, _⟩ := runRestore_ok_spec localRoot rawRoot rArgs out hout
    rw [hreqs] at hq
    unfold restoreDeletable at hq
    rw [List.mem_filter] at hq
    refine ⟨hq.1, ?_⟩
    intro b2 hb2
    rw [hb] at hb2
    cases hb2
    simpa using hq.2

/-! ## Claim C1 — baseline protection in `autoUploadChangedFiles` -/

/-- Claim C1's counterexample: the baseline path `"../raw/x"` appears in
`deletedPaths`; its raw-mirror resolution `p/raw/x` is a regular file lying
inside the mirror (the mirror root is a strict prefix of it), so the claim
asserts it must be restored, re-upserted and reported — but its
working-copy resolution escapes `p/local`, so the loop skips it entirely:
nothing is restored, the upsert set stays empty and the filesystem is
unchanged. -/
theorem c1_baseline_protection_counterexample :
    "../raw/x" ∈ c1CtrArgs.deletedPaths ∧
    normalizeRelativePath "../raw/x" = "../raw/x" ∧
    "../raw/x" ∈ baselineSetOf c1CtrArgs ∧
    isFile c1CtrArgs.fs (resolveSegs ["p", "raw"] "../raw/x") = true ∧
    (["p", "raw"] : AbsPath).isPrefixOf (resolveSegs ["p", "raw"] "../raw/x") = true ∧
    (autoUploadChangedFiles ["p", "local"] ["p", "raw"]
      c1CtrArgs).result.restoredProtectedFiles = [] ∧
    (autoUploadChangedFiles ["p", "local"] ["p", "raw"] c1CtrArgs).upsertSetFinal = [] ∧
    (autoUploadChangedFiles ["p", "local"] ["p", "raw"] c1CtrArgs).fs = c1CtrArgs.fs := by
  refine ⟨by decide, by decide, by decide, by decide, by decide, by decide, by decide,
    by decide⟩

/-- Claim C1 (amended): for every path of the `deletedPaths` argument whose
normalized form is a baseline path, if its raw-mirror resolution is an
existing regular file *and its working-copy resolution lies strictly inside
the working copy* (paths whose `..` segments escape the root are skipped),
then the path is restored into the working copy, added to the upsert set,
and reported in `restoredProtectedFiles`; and a baseline path is never
included in the set of paths requested for remote deletion, under no
condition at all. -/
theorem c1_baseline_protection (localRoot rawRoot : AbsPath) (a : AutoUploadArgs)
    (p : String)
    (hp : p ∈ a.deletedPaths) (hne : normalizeRelativePath p ≠ "")
    (hbase : normalizeRelativePath p ∈ baselineSetOf a)
    (hraw : isFile a.fs (resolveSegs rawRoot (normalizeRelativePath p)) = true)
    (hinside : isPathInsideLocal localRoot
      (resolveSegs localRoot (normalizeRelativePath p)) = true) :
    normalizeRelativePath p
        ∈ (autoUploadChangedFiles localRoot rawRoot a).result.restoredProtectedFiles ∧
    normalizeRelativePath p ∈ (autoUploadChangedFiles localRoot rawRoot a).upsertSetFinal ∧
    resolveSegs localRoot (normalizeRelativePath p)
        ∈ (autoUploadChangedFiles localRoot rawRoot a).fs ∧
    normalizeRelativePath p
        ∉ (autoUploadChangedFiles localRoot rawRoot a).deletableOnServer ∧
    normalizeRelativePath p
        ∉ (autoUploadChangedFiles localRoot rawRoot a).remoteDeleteRequests := by
  obtain ⟨hskip, hprot, hfs, hupsert, hdelf, hreq⟩ := autoUpload_outcome_fields localRoot rawRoot a
  have hmem := mem_autoUploadNormalizedDeleted hp hne
  have hbaseC : (baselineSetOf a).contains (normalizeRelativePath p) = true := by
    simpa using hbase
  have hres := classify_fold_restores localRoot rawRoot (baselineSetOf a) (trackedSetOf a)
    (autoUploadNormalizedDeleted a)
    ⟨autoUploadNormalizedUpserts a, [], [], [], [], a.fs⟩
    (normalizeRelativePath p) hmem hbaseC hraw hinside
  have hnotdel : normalizeRelativePath p
      ∉ (autoUploadCls localRoot rawRoot a).deletableOnServer := by
    rw [autoUploadCls_deletable, List.mem_filter]
    rintro ⟨_, hpred⟩
    simp only [Bool.and_eq_true, Bool.not_eq_true'] at hpred
    rw [hbaseC] at hpred
    exact Bool.noConfusion hpred.1
  refine ⟨?_, ?_, ?_, ?_, ?_⟩
  · rw [hprot, autoUploadCls_eq_foldl]
    exact hres.1
  · rw [hupsert, autoUploadCls_eq_foldl]
    exact hres.2.1
  · rw [hfs, autoUploadCls_eq_foldl]
    exact hres.2.2
  · rw [hdelf]
    exact hnotdel
  · intro hmem2
    exact hnotdel (hreq _ hmem2)

/-- Witness for C1 at the spec's own scenario: baseline
`{a.txt, b/c.txt}`, `deletedPaths = ["a.txt"]` — `a.txt` is restored from
the mirror, re-queued for upload, reported, and not deleted remotely. -/
theorem c1_baseline_protection_witness :
    "a.txt" ∈ (autoUploadChangedFiles ["p", "local"] ["p", "raw"]
        c1WitArgs).result.restoredProtectedFiles ∧
    "a.txt" ∈ (autoUploadChangedFiles ["p", "local"] ["p", "raw"] c1WitArgs).upsertSetFinal ∧
    (["p", "local", "a.txt"] : AbsPath)
        ∈ (autoUploadChangedFiles ["p", "local"] ["p", "raw"] c1WitArgs).fs ∧
    "a.txt" ∉ (autoUploadChangedFiles ["p", "local"] ["p", "raw"] c1WitArgs).deletableOnServer ∧
    "a.txt" ∉ (autoUploadChangedFiles ["p", "local"] ["p", "raw"]
      c1WitArgs).remoteDeleteRequests := by
  have h := c1_baseline_protection ["p", "local"] ["p", "raw"] c1WitArgs "a.txt"
    (by decide) (by decide) (by decide) (by decide) (by decide)
  exact h

/-! ## Claim C7 — the sync-rule state update -/

theorem trackedSetOf_norm {a : AutoUploadArgs} {t : String} (ht : t ∈ trackedSetOf a) :
    normalizeRelativePath t = t := by
  unfold trackedSetOf at ht
  rw [List.mem_dedup] at ht
  rcases List.mem_map.mp ht with ⟨s, _, rfl⟩
  exact normalizeRelativePath_idem s

theorem uploadFiles_mem_sources (localRoot rawRoot : AbsPath) (a : AutoUploadArgs)
    {t : String} (ht : t ∈ autoUploadUploadFiles localRoot rawRoot a) :
    t ∈ autoUploadNormalizedUpserts a ∨ t ∈ autoUploadNormalizedDeleted a := by
  unfold autoUploadUploadFiles at ht
  rw [List.mem_filter] at ht
  have ht2 := mem_sortStrings.mp ht.1
  rw [autoUploadCls_eq_foldl] at ht2
  have := classify_fold_upsert_from localRoot rawRoot (baselineSetOf a) (trackedSetOf a)
    (autoUploadNormalizedDeleted a)
    ⟨autoUploadNormalizedUpserts a, [], [], [], [], a.fs⟩ t ht2
  exact this

theorem uploadFiles_norm (localRoot rawRoot : AbsPath) (a : AutoUploadArgs)
    {t : String} (ht : t ∈ autoUploadUploadFiles localRoot rawRoot a) :
    normalizeRelativePath t = t := by
  rcases uploadFiles_mem_sources localRoot rawRoot a ht with h | h
  · exact (norm_filter_mem (mem_sortedDedup.mp h)).1
  · exact (norm_filter_mem (mem_sortedDedup.mp h)).1

theorem trackedSetOf_nodup (a : AutoUploadArgs) : (trackedSetOf a).Nodup :=
  List.nodup_dedup _

theorem trackedAfter_nodup (localRoot rawRoot : AbsPath) (a : AutoUploadArgs) :
    (autoUploadTrackedAfter localRoot rawRoot a).Nodup := by
  unfold autoUploadTrackedAfter
  exact foldl_erase_nodup (foldl_setAdd_filter_nodup _ (trackedSetOf_nodup a))

theorem mem_autoUploadTrackedAfter (localRoot rawRoot : AbsPath) (a : AutoUploadArgs)
    (q : String) :
    q ∈ autoUploadTrackedAfter localRoot rawRoot a ↔
      ((q ∈ trackedSetOf a ∨
          (q ∈ autoUploadUploadFiles localRoot rawRoot a ∧ q ∉ baselineSetOf a)) ∧
        q ∉ (autoUploadCls localRoot rawRoot a).deletableOnServer) := by
  unfold autoUploadTrackedAfter
  rw [mem_foldl_erase (foldl_setAdd_filter_nodup _ (trackedSetOf_nodup a)),
    mem_foldl_setAdd_filter]
  constructor
  · rintro ⟨h1 | ⟨h2, h3⟩, h4⟩
    · exact ⟨Or.inl h1, h4⟩
    · exact ⟨Or.inr ⟨h2, by simpa using h3⟩, h4⟩
  · rintro ⟨h1 | ⟨h2, h3⟩, h4⟩
    · exact ⟨Or.inl h1, h4⟩
    · exact ⟨Or.inr ⟨h2, by simpa using h3⟩, h4⟩

theorem trackedAfter_norm (localRoot rawRoot : AbsPath) (a : AutoUploadArgs)
    {t : String} (ht : t ∈ autoUploadTrackedAfter localRoot rawRoot a) :
    normalizeRelativePath t = t := by
  rcases ((mem_autoUploadTrackedAfter localRoot rawRoot a t).mp ht).1 with h | h
  · exact trackedSetOf_norm h
  · exact uploadFiles_norm localRoot rawRoot a h.1

theorem mem_writeSyncRuleState {l : List String} {q : String}
    (hl : ∀ t ∈ l, normalizeRelativePath t = t) :
    q ∈ (writeSyncRuleState ⟨l⟩).trackedNewServerFiles ↔ q ∈ l ∧ q ≠ "" := by
  unfold writeSyncRuleState
  rw [mem_sortedDedup, List.mem_filter]
  constructor
  · rintro ⟨h1, h2⟩
    rcases List.mem_map.mp h1 with ⟨t, ht, rfl⟩
    rw [hl t ht]
    exact ⟨ht, by simpa [hl t ht] using h2⟩
  · rintro ⟨h1, h2⟩
    exact ⟨List.mem_map.mpr ⟨q, h1, hl q h1⟩, by simpa using h2⟩

/-- Claim C7's counterexample: `d.txt` is tracked-new and deleted locally;
the remote deletion is skipped as permission denied, so no path was
successfully deleted (`deletedCount = 0`) — yet the persisted
`trackedNewServerFiles` drops `d.txt` anyway, so "a path whose remote
deletion did not succeed remains tracked" fails. -/
theorem c7_sync_state_counterexample :
    trackedSetOf c7CtrArgs = ["d.txt"] ∧
    (autoUploadChangedFiles ["p", "local"] ["p", "raw"] c7CtrArgs).result.deletedCount = 0 ∧
    (autoUploadChangedFiles ["p", "local"] ["p", "raw"] c7CtrArgs).result.deletedFiles
      = ["d.txt"] ∧
    (autoUploadChangedFiles ["p", "local"] ["p", "raw"] c7CtrArgs).syncStateWritten
      = some ⟨[]⟩ := by
  refine ⟨by decide, by decide, by decide, by decide⟩

/-- Claim C7 (amended): when `autoUploadChangedFiles` completes without a
transport error and persists the sync-rule state, the persisted
`trackedNewServerFiles` contains exactly: the nonempty paths that were
already tracked or were uploaded and are not baseline paths, *minus the
entire remote-deletable set* — every path in the delete request is
untracked whether or not its individual remote deletion succeeded
(permission-denied-skipped deletions are untracked too). -/
theorem c7_sync_state_update (localRoot rawRoot : AbsPath) (a : AutoUploadArgs)
    (w : SyncRuleState)
    (hw : (autoUploadChangedFiles localRoot rawRoot a).syncStateWritten = some w)
    (q : String) :
    q ∈ w.trackedNewServerFiles ↔
      (q ≠ "" ∧
        (q ∈ trackedSetOf a ∨
          (q ∈ (autoUploadChangedFiles localRoot rawRoot a).result.uploadedFiles ∧
            q ∉ baselineSetOf a)) ∧
        q ∉ (autoUploadChangedFiles localRoot rawRoot a).deletableOnServer) := by
  rcases autoUpload_cases localRoot rawRoot a with hc | hc | ⟨e, _, hc⟩ |
    ⟨uc, ua, e, _, _, hc⟩ | ⟨uc, ua, dc, _, _, hc⟩ <;> rw [hc] at hw ⊢
  · exact absurd hw (by simp [autoUploadNonFtpOutcome])
  · exact absurd hw (by simp [autoUploadNoCredsOutcome])
  · exact absurd hw (by simp [autoUploadFailureOutcome])
  · exact absurd hw (by simp [autoUploadFailureOutcome])
  · have hwv : w = writeSyncRuleState ⟨autoUploadTrackedAfter localRoot rawRoot a⟩ := by
      have : some (writeSyncRuleState ⟨autoUploadTrackedAfter localRoot rawRoot a⟩)
          = some w := hw
      exact (Option.some.injEq _ _ ▸ this).symm
    subst hwv
    rw [mem_writeSyncRuleState (fun t ht => trackedAfter_norm localRoot rawRoot a ht),
      mem_autoUploadTrackedAfter]
    show _ ↔ (q ≠ "" ∧
      (q ∈ trackedSetOf a ∨
        (q ∈ (autoUploadSuccessOutcome localRoot rawRoot a uc ua dc).result.uploadedFiles ∧
          q ∉ baselineSetOf a)) ∧
      q ∉ (autoUploadSuccessOutcome localRoot rawRoot a uc ua dc).deletableOnServer)
    constructor
    · rintro ⟨⟨h1, h2⟩, h3⟩
      exact ⟨h3, h1, h2⟩
    · rintro ⟨h1, h2, h3⟩
      exact ⟨⟨h2, h3⟩, h1⟩

/-- Witness for C7 at the spec's first scenario: after uploading the new
file `d.txt`, the persisted tracked set is `["d.txt"]`, and membership of
`"d.txt"` matches the amended characterization. -/
theorem c7_sync_state_witness :
    "d.txt" ∈ (⟨["d.txt"]⟩ : SyncRuleState).trackedNewServerFiles ↔
      (("d.txt" : String) ≠ "" ∧
        ("d.txt" ∈ trackedSetOf c7WitArgs ∨
          ("d.txt" ∈ (autoUploadChangedFiles ["p", "local"] ["p", "raw"]
              c7WitArgs).result.uploadedFiles ∧
            "d.txt" ∉ baselineSetOf c7WitArgs)) ∧
        "d.txt" ∉ (autoUploadChangedFiles ["p", "local"] ["p", "raw"]
          c7WitArgs).deletableOnServer) :=
  c7_sync_state_update ["p", "local"] ["p", "raw"] c7WitArgs ⟨["d.txt"]⟩ (by decide) "d.txt"

/-! ## Claim C10 — the durable-metadata readers -/

/-- Claim C10's counterexample: `readInitialBaseline` does *not*
deduplicate — a stored `files` array `["a", "a"]` is returned with the
duplicate intact, so "every path list they return is deduplicated" fails. -/
theorem c10_readers_counterexample :
    (readInitialBaseline (RawFile.json (Jsonv.obj
        [("files", Jsonv.arr [Jsonv.str "a", Jsonv.str "a"])]))).map (·.files)
      = some ["a", "a"] ∧
    ¬ (["a", "a"] : List String).Nodup := by
  exact ⟨by decide, by decide⟩

/-- Claim C10 (amended): the three readers are total — on missing/blank or
malformed input they return `none`/empty defaults instead of raising — and
`readSyncRuleState`'s list is normalized, nonempty-filtered, deduplicated
and sorted, while `readInitialBaseline`'s list is normalized,
nonempty-filtered and sorted but not deduplicated, and `readDeltaManifest`
returns the stored `files` map (or empty) without any normalization. -/
theorem c10_readers_total_normalizing (r : RawFile) :
    (readInitialBaseline RawFile.absent = none ∧ readInitialBaseline RawFile.invalid = none ∧
      readSyncRuleState RawFile.absent = ⟨[]⟩ ∧ readSyncRuleState RawFile.invalid = ⟨[]⟩ ∧
      readDeltaManifest RawFile.absent = ⟨"", []⟩ ∧
      readDeltaManifest RawFile.invalid = ⟨"", []⟩) ∧
    (∀ b, readInitialBaseline r = some b →
      b.files.Sorted (· ≤ ·) ∧ ∀ p ∈ b.files, normalizeRelativePath p = p ∧ p ≠ "") ∧
    ((readSyncRuleState r).trackedNewServerFiles.Sorted (· ≤ ·) ∧
      (readSyncRuleState r).trackedNewServerFiles.Nodup ∧
      ∀ p ∈ (readSyncRuleState r).trackedNewServerFiles,
        normalizeRelativePath p = p ∧ p ≠ "") := by
  refine ⟨⟨rfl, rfl, rfl, rfl, rfl, rfl⟩, ?_, ?_⟩
  · intro b hb
    cases r with
    | absent => exact Option.noConfusion hb
    | invalid => exact Option.noConfusion hb
    | json j =>
      rw [readInitialBaseline] at hb
      split at hb
      · next items heq =>
        have hbfiles : b.files = sortStrings
            ((((items.filterMap (fun it =>
              match it with
              | Jsonv.str s => some s
              | _ => none)).map normalizeRelativePath).filter (fun s => s != ""))) := by
          cases hb
          rfl
        rw [hbfiles]
        exact ⟨sortStrings_sorted _, fun p hp => norm_filter_mem (mem_sortStrings.mp hp)⟩
      · exact absurd hb (by simp)
  · cases r with
    | absent => exact ⟨List.sorted_nil, List.nodup_nil,
        fun p hp => absurd hp (List.not_mem_nil p)⟩
    | invalid => exact ⟨List.sorted_nil, List.nodup_nil,
        fun p hp => absurd hp (List.not_mem_nil p)⟩
    | json j =>
      exact ⟨sortedDedup_sorted _, sortedDedup_nodup _,
        fun p hp => norm_filter_mem (mem_sortedDedup.mp hp)⟩

/-- Witness for C10 at a concrete stored baseline `{"files": ["/x",
"b\\y"]}`: the reader returns the normalized sorted list `["b/y", "x"]`,
which satisfies the amended normalization properties. -/
theorem c10_readers_witness :
    (["b/y", "x"] : List String).Sorted (· ≤ ·) ∧
    ∀ p ∈ (["b/y", "x"] : List String), normalizeRelativePath p = p ∧ p ≠ "" := by
  exact (c10_readers_total_normalizing (RawFile.json (Jsonv.obj
      [("files", Jsonv.arr [Jsonv.str "/x", Jsonv.str "b\\y"])]))).2.1
    ⟨"", "/", ["b/y", "x"]⟩ (by decide)

/-! ## Claim C9 — deploy postcondition -/

/-- Claim C9's counterexample: a Deploy whose change detection finds
nothing returns success *without* creating or refreshing the persisted
DeltaManifest (here the manifest exists and matches the single local file),
so "creates/refreshes the persisted DeltaManifest on every successful
Deploy" fails. -/
theorem c9_deploy_counterexample :
    (deployFtpDelta "h" "u" "pw" [("a.txt", ⟨5, 7⟩)]
        (RawFile.json (Jsonv.obj [("updatedAt", Jsonv.str "t0"),
          ("files", Jsonv.obj [("a.txt",
            Jsonv.obj [("mtimeMs", Jsonv.num 5), ("size", Jsonv.num 7)])])]))
        (Except.ok ()) "t9").map (fun o => o.manifestWritten)
      = Except.ok none := rfl

/-- Claim C9 (amended): a completed `deployFtpDelta` requests exactly one
upload per entry of `detectChangedFiles` (a snapshot entry is uploaded iff
its fingerprint differs from the stored manifest entry; all entries when
the manifest is absent or unreadable), requests no remote deletion, and
persists the manifest of the fresh snapshot iff at least one file changed —
a Deploy detecting no changes succeeds without touching the manifest. -/
theorem c9_deploy_delta (ftpHost ftpUser ftpPassword : String)
    (snapshot : List (String × LocalFileSnapshot)) (prevRaw : RawFile)
    (uploadOutcome : Except FtpError Unit) (finishedAt : String) (out : DeployFtpOutcome)
    (hok : deployFtpDelta ftpHost ftpUser ftpPassword snapshot prevRaw uploadOutcome finishedAt
      = .ok out) :
    (out.actions = (detectChangedFiles snapshot (readDeltaManifest prevRaw)).map
      (fun item => FtpAction.upload item.1)) ∧
    (∀ act ∈ out.actions, ∃ p, act = FtpAction.upload p) ∧
    (∀ item ∈ snapshot, (item ∈ detectChangedFiles snapshot (readDeltaManifest prevRaw) ↔
      fingerprintDiffers (readDeltaManifest prevRaw) item = true)) ∧
    ((prevRaw = RawFile.absent ∨ prevRaw = RawFile.invalid) →
      detectChangedFiles snapshot (readDeltaManifest prevRaw) = snapshot) ∧
    (out.manifestWritten =
      if (detectChangedFiles snapshot (readDeltaManifest prevRaw)).isEmpty then none
      else some (toDeltaManifest snapshot finishedAt)) := by
  have hchar : ∀ item ∈ snapshot,
      (item ∈ detectChangedFiles snapshot (readDeltaManifest prevRaw) ↔
        fingerprintDiffers (readDeltaManifest prevRaw) item = true) := by
    intro item hmem
    rw [detectChangedFiles, List.mem_filter]
    exact ⟨fun h => h.2, fun h => ⟨hmem, h⟩⟩
  have hall : (prevRaw = RawFile.absent ∨ prevRaw = RawFile.invalid) →
      detectChangedFiles snapshot (readDeltaManifest prevRaw) = snapshot := by
    rintro (rfl | rfl) <;>
      · rw [detectChangedFiles, List.filter_eq_self]
        intro item _
        rfl
  rw [deployFtpDelta.eq_def] at hok
  by_cases hcred : (ftpHost == "" || ftpUser == "" || ftpPassword == "") = true
  · rw [if_pos hcred] at hok
    exact absurd hok (by simp)
  · rw [if_neg hcred] at hok
    by_cases hempty : (detectChangedFiles snapshot (readDeltaManifest prevRaw)).isEmpty = true
    · rw [if_pos hempty] at hok
      have hout : out = ⟨[], none, 0,
          "변경 파일 없음 (" ++ toString snapshot.length ++ " files scanned)"⟩ := by
        cases hok
        rfl
      subst hout
      refine ⟨by simp [List.isEmpty_iff.mp hempty], by simp, hchar, hall, by simp [hempty]⟩
    · rw [if_neg hempty] at hok
      cases uploadOutcome with
      | error e => exact absurd hok (by simp)
      | ok u =>
        have hout : out =
            ⟨(detectChangedFiles snapshot
                (readDeltaManifest prevRaw)).map (fun item => FtpAction.upload item.1),
              some (toDeltaManifest snapshot finishedAt),
              (detectChangedFiles snapshot (readDeltaManifest prevRaw)).length,
              "변경 파일 " ++ toString (detectChangedFiles snapshot
                (readDeltaManifest prevRaw)).length ++ "개 배포 완료"⟩ := by
          cases hok
          rfl
        subst hout
        refine ⟨rfl, ?_, hchar, hall, by simp [hempty]⟩
        intro act hact
        rcases List.mem_map.mp hact with ⟨item, _, rfl⟩
        exact ⟨item.1, rfl⟩

/-- Witness for C9 at a concrete input: one local file, no previous
manifest, successful upload — the file is uploaded, nothing is deleted,
and the manifest of the fresh snapshot is persisted. -/
theorem c9_deploy_delta_witness :
    ((⟨[FtpAction.upload "a.txt"],
        some (toDeltaManifest [("a.txt", ⟨5, 7⟩)] "t9"), 1,
        "변경 파일 1개 배포 완료"⟩ : DeployFtpOutcome).actions
      = (detectChangedFiles [("a.txt", ⟨5, 7⟩)] (readDeltaManifest RawFile.absent)).map
        (fun item => FtpAction.upload item.1)) ∧
    (∀ act ∈ (⟨[FtpAction.upload "a.txt"],
        some (toDeltaManifest [("a.txt", ⟨5, 7⟩)] "t9"), 1,
        "변경 파일 1개 배포 완료"⟩ : DeployFtpOutcome).actions,
      ∃ p, act = FtpAction.upload p) := by
  have h := c9_deploy_delta "h" "u" "pw" [("a.txt", ⟨5, 7⟩)] RawFile.absent
    (Except.ok ()) "t9"
    ⟨[FtpAction.upload "a.txt"], some (toDeltaManifest [("a.txt", ⟨5, 7⟩)] "t9"), 1,
      "변경 파일 1개 배포 완료"⟩ rfl
  exact ⟨h.1, h.2.1⟩

/-! ## Claim C3 — restore round-trip -/

theorem mem_removeFile {fs : Fs} {ap t : AbsPath} :
    ap ∈ removeFile fs t ↔ ap ∈ fs ∧ ap ≠ t := by
  rw [removeFile, List.mem_filter]
  simp [bne_iff_ne]

theorem inside_eq_append {localRoot t : AbsPath}
    (h : isPathInsideLocal localRoot t = true) :
    ∃ u, u ≠ [] ∧ t = localRoot ++ u := by
  simp only [isPathInsideLocal, Bool.and_eq_true, decide_eq_true_eq] at h
  obtain ⟨hpre, hne⟩ := h
  obtain ⟨u, hu⟩ := List.isPrefixOf_iff_prefix.mp hpre
  refine ⟨u, ?_, hu.symm⟩
  intro h0
  subst h0
  rw [List.append_nil] at hu
  exact hne hu.symm

theorem roots_disjoint {localRoot rawRoot : AbsPath}
    (h1 : ¬ localRoot <+: rawRoot) (h2 : ¬ rawRoot <+: localRoot)
    (s t : List String) : localRoot ++ s ≠ rawRoot ++ t := by
  intro he
  have hp1 : localRoot <+: rawRoot ++ t := he ▸ List.prefix_append localRoot s
  rcases List.prefix_or_prefix_of_prefix hp1 (List.prefix_append rawRoot t) with h | h
  · exact h1 h
  · exact h2 h

theorem mem_collectLocalRelSegs (localRoot : AbsPath) (fs : Fs) (s : List String) :
    s ∈ collectLocalRelSegs localRoot fs ↔ (localRoot ++ s ∈ fs ∧ s ≠ []) := by
  unfold collectLocalRelSegs
  rw [List.mem_filterMap]
  constructor
  · rintro ⟨ap, hap, hsome⟩
    by_cases hc : (localRoot.isPrefixOf ap && ap != localRoot) = true
    · rw [if_pos hc] at hsome
      simp only [Bool.and_eq_true, bne_iff_ne, ne_eq] at hc
      obtain ⟨hpre, hne⟩ := hc
      obtain ⟨t, ht⟩ := List.isPrefixOf_iff_prefix.mp hpre
      injection hsome with hs
      have hst : s = t := by rw [← hs, ← ht, List.drop_left]
      subst hst
      refine ⟨ht ▸ hap, ?_⟩
      intro h0
      subst h0
      rw [List.append_nil] at ht
      exact hne ht.symm
    · rw [if_neg hc] at hsome
      exact absurd hsome (by simp)
  · rintro ⟨hmem, hne⟩
    refine ⟨localRoot ++ s, hmem, ?_⟩
    rw [if_pos ?_]
    · rw [List.drop_left]
    · simp only [Bool.and_eq_true, bne_iff_ne, ne_eq]
      refine ⟨List.isPrefixOf_iff_prefix.mpr (List.prefix_append _ _), ?_⟩
      intro h0
      exact hne (List.append_cancel_left (h0.trans (List.append_nil localRoot).symm))

theorem mem_collectLocalRelPaths (localRoot : AbsPath) (fs : Fs) (q : String) :
    q ∈ collectLocalRelPaths localRoot fs ↔
      ∃ s, (localRoot ++ s ∈ fs ∧ s ≠ []) ∧ q = joinSegs s := by
  unfold collectLocalRelPaths
  rw [List.mem_map]
  constructor
  · rintro ⟨s, hs, heq⟩
    exact ⟨s, (mem_collectLocalRelSegs localRoot fs s).mp hs, heq.symm⟩
  · rintro ⟨s, hs, heq⟩
    exact ⟨s, (mem_collectLocalRelSegs localRoot fs s).mpr hs, heq.symm⟩

theorem mem_removal_fold (localRoot : AbsPath) (R : List String) :
    ∀ (fs0 : Fs) (ap : AbsPath),
      (ap ∈ R.foldl
        (fun acc relativePath =>
          if !isPathInsideLocal localRoot (resolveSegs localRoot relativePath) then acc
          else removeFile acc (resolveSegs localRoot relativePath))
        fs0) ↔
      (ap ∈ fs0 ∧ ∀ rp ∈ R,
        isPathInsideLocal localRoot (resolveSegs localRoot rp) = true →
          ap ≠ resolveSegs localRoot rp) := by
  induction R with
  | nil => intro fs0 ap; simp
  | cons r rs ih =>
    intro fs0 ap
    rw [List.foldl_cons]
    by_cases hin : isPathInsideLocal localRoot (resolveSegs localRoot r) = true
    · rw [if_neg (by simp [hin]), ih]
      constructor
      · rintro ⟨hmem, hrest⟩
        rw [mem_removeFile] at hmem
        refine ⟨hmem.1, ?_⟩
        intro rp hrp hins
        rcases List.mem_cons.mp hrp with heq | hrp2
        · exact heq ▸ hmem.2
        · exact hrest rp hrp2 hins
      · rintro ⟨hmem, hall⟩
        refine ⟨mem_removeFile.mpr ⟨hmem, hall r (List.mem_cons_self r rs) hin⟩, ?_⟩
        intro rp hrp hins
        exact hall rp (List.mem_cons_of_mem r hrp) hins
    · have hinf : isPathInsideLocal localRoot (resolveSegs localRoot r) = false :=
        Bool.eq_false_iff.mpr hin
      rw [if_pos (by simp [hinf]), ih]
      constructor
      · rintro ⟨hmem, hrest⟩
        refine ⟨hmem, ?_⟩
        intro rp hrp hins
        rcases List.mem_cons.mp hrp with heq | hrp2
        · exact absurd (heq ▸ hins) hin
        · exact hrest rp hrp2 hins
      · rintro ⟨hmem, hall⟩
        exact ⟨hmem, fun rp hrp hins => hall rp (List.mem_cons_of_mem r hrp) hins⟩

theorem mem_restore_fold (localRoot rawRoot : AbsPath) (bfiles : List String) :
    ∀ (fs1 : Fs) (acc0 : List String) (ap : AbsPath),
      (∀ p ∈ bfiles, resolveSegs rawRoot p ∈ fs1) →
      ((ap ∈ (bfiles.foldl
        (fun (acc : Fs × List String) relativePath =>
          if !isFile acc.1 (resolveSegs rawRoot relativePath) then acc
          else if !isPathInsideLocal localRoot (resolveSegs localRoot relativePath) then acc
          else (addFile acc.1 (resolveSegs localRoot relativePath), acc.2 ++ [relativePath]))
        (fs1, acc0)).1) ↔
      (ap ∈ fs1 ∨ ∃ p, p ∈ bfiles ∧
        isPathInsideLocal localRoot (resolveSegs localRoot p) = true ∧
        ap = resolveSegs localRoot p)) := by
  induction bfiles with
  | nil => intro fs1 acc0 ap _; simp
  | cons x xs ih =>
    intro fs1 acc0 ap hraw
    have hxfile : isFile fs1 (resolveSegs rawRoot x) = true :=
      isFile_iff_mem.mpr (hraw x (List.mem_cons_self x xs))
    rw [List.foldl_cons]
    by_cases hin : isPathInsideLocal localRoot (resolveSegs localRoot x) = true
    · have hstep : (if !isFile ((fs1, acc0) : Fs × List String).1 (resolveSegs rawRoot x)
          then ((fs1, acc0) : Fs × List String)
          else if !isPathInsideLocal localRoot (resolveSegs localRoot x)
          then ((fs1, acc0) : Fs × List String)
          else (addFile ((fs1, acc0) : Fs × List String).1 (resolveSegs localRoot x),
            ((fs1, acc0) : Fs × List String).2 ++ [x]))
          = ((addFile fs1 (resolveSegs localRoot x), acc0 ++ [x]) : Fs × List String) := by
        simp [hxfile, hin]
      rw [hstep, ih (addFile fs1 (resolveSegs localRoot x)) (acc0 ++ [x]) ap
        (fun p hp => List.mem_cons_of_mem _ (hraw p (List.mem_cons_of_mem x hp)))]
      constructor
      · rintro (hmem | ⟨p, hp, hpin, rfl⟩)
        · rcases List.mem_cons.mp hmem with heq | hmem2
          · exact Or.inr ⟨x, List.mem_cons_self x xs, hin, heq⟩
          · exact Or.inl hmem2
        · exact Or.inr ⟨p, List.mem_cons_of_mem x hp, hpin, rfl⟩
      · rintro (hmem | ⟨p, hp, hpin, rfl⟩)
        · exact Or.inl (List.mem_cons_of_mem _ hmem)
        · rcases List.mem_cons.mp hp with heq | hp2
          · exact Or.inl (heq ▸ List.mem_cons_self _ _)


          · exact Or.inr ⟨p, hp2, hpin, rfl⟩
    · have hinf : isPathInsideLocal localRoot (resolveSegs localRoot x) = false :=
        Bool.eq_false_iff.mpr hin
      have hstep : (if !isFile ((fs1, acc0) : Fs × List String).1 (resolveSegs rawRoot x)
          then ((fs1, acc0) : Fs × List String)
          else if !isPathInsideLocal localRoot (resolveSegs localRoot x)
          then ((fs1, acc0) : Fs × List String)
          else (addFile ((fs1, acc0) : Fs × List String).1 (resolveSegs localRoot x),
            ((fs1, acc0) : Fs × List String).2 ++ [x]))
          = ((fs1, acc0) : Fs × List String) := by
        simp [hxfile, hinf]
      rw [hstep, ih fs1 acc0 ap (fun p hp => hraw p (List.mem_cons_of_mem x hp))]
      constructor
      · rintro (hmem | ⟨p, hp, hpin, rfl⟩)
        · exact Or.inl hmem
        · exact Or.inr ⟨p, List.mem_cons_of_mem x hp, hpin, rfl⟩
      · rintro (hmem | ⟨p, hp, hpin, rfl⟩)
        · exact Or.inl hmem
        · rcases List.mem_cons.mp hp with heq | hp2
          · exact absurd (heq ▸ hpin) (by simp [hinf])
          · exact Or.inr ⟨p, hp2, hpin, rfl⟩

/-- Claim C3's counterexample: the baseline path `"a/./b"` resolves to the
regular mirror file `r/a/b` — so the claim's hypothesis "every path in
Baseline.files exists as a regular file in the raw mirror" holds — yet the
restored working copy's relative-path set is `["a/b"]`, which is not
`Baseline.files = ["a/./b"]`: the round-trip only holds for canonical
(slash-separated, no empty/dot segment) baseline paths. -/
theorem c3_restore_round_trip_counterexample :
    (runRestoreInitial ["l"] ["r"] c3CtrArgs).map
        (fun o => collectLocalRelPaths ["l"] o.fs) = .ok ["a/b"] ∧
    c3CtrArgs.baseline = some ⟨"t0", "/", ["a/./b"]⟩ ∧
    resolveSegs ["r"] "a/./b" = ["r", "a", "b"] ∧
    isFile c3CtrArgs.fs (resolveSegs ["r"] "a/./b") = true ∧
    ("a/b" : String) ≠ "a/./b" :=
  ⟨rfl, rfl, by decide, by decide, by decide⟩

/-- Claim C3 (amended): for baseline files given as canonical relative
paths (nonempty, slash-separated well-formed segments), when the local and
raw roots are not nested in each other, every baseline path exists as a
regular file in the raw mirror, and the starting filesystem has
well-formed segments, a completed `runRestoreInitial` leaves exactly the
baseline set as the relative paths of the files under the local working
copy: every non-baseline local file is removed and every baseline file is
recreated from the mirror. -/
theorem c3_restore_round_trip (localRoot rawRoot : AbsPath) (a : RestoreArgs)
    (b : InitialBaselineSnapshot) (out : RestoreOutcome)
    (hb : a.baseline = some b)
    (hroot1 : ¬ localRoot <+: rawRoot) (hroot2 : ¬ rawRoot <+: localRoot)
    (hwfB : ∀ p ∈ b.files, splitSegs p ≠ [] ∧ ∀ s ∈ splitSegs p, WfSeg s)
    (hraw : ∀ p ∈ b.files, rawRoot ++ splitSegs p ∈ a.fs)
    (hwfFs : ∀ ap ∈ a.fs, ∀ seg ∈ ap, WfSeg seg)
    (hrun : runRestoreInitial localRoot rawRoot a = .ok out) :
    ∀ q, q ∈ collectLocalRelPaths localRoot out.fs ↔ q ∈ b.files := by
  obtain ⟨b2, hb2, _, hfs, _, _, _⟩ := runRestore_ok_spec localRoot rawRoot a out hrun
  rw [hb] at hb2
  injection hb2 with hb3
  subst hb3
  have hres_raw : ∀ p ∈ b.files, resolveSegs rawRoot p = rawRoot ++ splitSegs p := by
    intro p hp
    rw [resolveSegs]
    exact resolveSegs_wf rawRoot (splitSegs p) (hwfB p hp).2
  have hres_loc : ∀ p ∈ b.files, resolveSegs localRoot p = localRoot ++ splitSegs p := by
    intro p hp
    rw [resolveSegs]
    exact resolveSegs_wf localRoot (splitSegs p) (hwfB p hp).2
  have hin_loc : ∀ p ∈ b.files,
      isPathInsideLocal localRoot (resolveSegs localRoot p) = true := by
    intro p hp
    rw [hres_loc p hp]
    exact isPathInsideLocal_append localRoot (splitSegs p) (hwfB p hp).1
  have hrm : ∀ ap, ap ∈ removeNonBaselineLocals localRoot a.fs b.files ↔
      (ap ∈ a.fs ∧ ∀ rp ∈ (collectLocalRelPaths localRoot a.fs).filter
          (fun p => !b.files.contains p),
        isPathInsideLocal localRoot (resolveSegs localRoot rp) = true →
          ap ≠ resolveSegs localRoot rp) := by
    intro ap
    unfold removeNonBaselineLocals
    exact mem_removal_fold localRoot _ a.fs ap
  have hraw1 : ∀ p ∈ b.files,
      resolveSegs rawRoot p ∈ removeNonBaselineLocals localRoot a.fs b.files := by
    intro p hp
    refine (hrm _).mpr ⟨by rw [hres_raw p hp]; exact hraw p hp, ?_⟩
    intro rp _ hins
    obtain ⟨u, _, hu⟩ := inside_eq_append hins
    rw [hres_raw p hp, hu]
    exact roots_disjoint hroot2 hroot1 (splitSegs p) u
  have hfs2 : out.fs = (restoreBaselineFold localRoot rawRoot
      (removeNonBaselineLocals localRoot a.fs b.files) b.files).1 := hfs
  have hmem_final : ∀ ap, ap ∈ out.fs ↔
      (ap ∈ removeNonBaselineLocals localRoot a.fs b.files ∨
        ∃ p, p ∈ b.files ∧
          isPathInsideLocal localRoot (resolveSegs localRoot p) = true ∧
          ap = resolveSegs localRoot p) := by
    intro ap
    rw [hfs2]
    unfold restoreBaselineFold
    exact mem_restore_fold localRoot rawRoot b.files
      (removeNonBaselineLocals localRoot a.fs b.files) [] ap hraw1
  intro q
  constructor
  · intro hq
    obtain ⟨s, ⟨hsmem, hsne⟩, rfl⟩ := (mem_collectLocalRelPaths localRoot out.fs q).mp hq
    rw [hmem_final] at hsmem
    rcases hsmem with hfs1 | ⟨p, hp, _, heq⟩
    · obtain ⟨hafs, hall⟩ := (hrm _).mp hfs1
      by_contra hqb
      have hwfs : ∀ seg ∈ s, WfSeg seg := fun seg hseg =>
        hwfFs (localRoot ++ s) hafs seg (List.mem_append.mpr (Or.inr hseg))
      have hres : resolveSegs localRoot (joinSegs s) = localRoot ++ s :=
        resolveSegs_joinSegs localRoot s hsne hwfs
      have hins : isPathInsideLocal localRoot
          (resolveSegs localRoot (joinSegs s)) = true := by
        rw [hres]
        exact isPathInsideLocal_append localRoot s hsne
      have hrp_mem : joinSegs s ∈ (collectLocalRelPaths localRoot a.fs).filter
          (fun p => !b.files.contains p) := by
        rw [List.mem_filter]
        refine ⟨(mem_collectLocalRelPaths localRoot a.fs _).mpr ⟨s, ⟨hafs, hsne⟩, rfl⟩, ?_⟩
        simpa using hqb
      exact hall (joinSegs s) hrp_mem hins hres.symm
    · rw [hres_loc p hp] at heq
      rw [List.append_cancel_left heq, joinSegs_splitSegs]
      exact hp
  · intro hq
    have htgt : localRoot ++ splitSegs q ∈ out.fs := by
      rw [hmem_final]
      exact Or.inr ⟨q, hq, hin_loc q hq, (hres_loc q hq).symm⟩
    exact (mem_collectLocalRelPaths localRoot out.fs q).mpr
      ⟨splitSegs q, ⟨htgt, (hwfB q hq).1⟩, (joinSegs_splitSegs q).symm⟩

/-- Witness for C3 at a concrete input: one canonical baseline file
`"a.txt"` with its mirror copy present under `r`; after the restore the
local working copy holds exactly the baseline set. -/
theorem c3_restore_round_trip_witness :
    ("a.txt" ∈ collectLocalRelPaths ["l"]
        (RestoreOutcome.mk
          ⟨1, 0, "최초 상태 복구 완료: 교체 1개, 신규삭제 0개"⟩
          [["l", "a.txt"], ["r", "a.txt"]]
          ["a.txt"] [] (writeSyncRuleState ⟨[]⟩)).fs ↔
      "a.txt" ∈ (["a.txt"] : List String)) :=
  c3_restore_round_trip ["l"] ["r"] c3WitArgs ⟨"t0", "/", ["a.txt"]⟩
    (RestoreOutcome.mk
      ⟨1, 0, "최초 상태 복구 완료: 교체 1개, 신규삭제 0개"⟩
      [["l", "a.txt"], ["r", "a.txt"]]
      ["a.txt"] [] (writeSyncRuleState ⟨[]⟩))
    rfl (by decide) (by decide) (by decide) (by decide) (by decide) rfl "a.txt"

end PubAi
